import Mathlib

/-!
Verification of the dendron2logseq converter (`dendron2logseq.py`).

The program converts one Markdown document into an outline document,
line by line.  We shallowly embed the core `process_and_save_file`
state machine together with the inline-token rewriters
`convert_embeds`, `convert_internal_links` and the asset-path fix.

Lines are modelled as `List Char` (a Python line, with its trailing
newline when present).  Python regular expressions are embedded as
executable scanners with exactly the leftmost / greedy / lazy
backtracking behaviour of the `re` module on the concrete patterns of
the source:

  inline_code_re                     = `.*?`            (dot never matches a newline)
  embed_token_re                     = !\[\[.+?\]\]
  embed_token_with_anchor_re         = !\[\[(.+?)(#.*)?\]\]
  wiki_link_token_re                 = \[\[.+?\]\]
  wiki_link_token_with_internals_re  = \[\[(.*?|)?(.+?)(#.*)?\]\]
  image_assets_re                    = (!\[.*?\]\()(/assets/)(.*?\))
  bullet_re                          = ^( *)([-*+])(.*)
  indent_level_re                    = (    )+
  heading_re                         = (#+)' '
  tab_indents_re                     = (\t+)

Scanners that restart after a produced match are written with a fuel
argument (`…Go`), the fuel being the length of the input; with enough
fuel they implement the regex semantics.  Python indexing errors
(`line[0]`, `line.lstrip()[0]`, `previous_line.strip()` on `None`) are
modelled by `Option`: `none` is a crash.
-/

/-- The backquote character. -/
def btick : Char := '\x60'

/-- Python `str` whitespace (the ASCII part, which is all our inputs use). -/
def isPyWs (c : Char) : Bool :=
  c = ' ' || c = '\t' || c = '\n' || c = '\r' || c = '\x0b' || c = '\x0c'

/-- Python `str.lstrip()`. -/
def pyLstrip (l : List Char) : List Char := l.dropWhile isPyWs

/-- Python `str.rstrip()`. -/
def pyRstrip (l : List Char) : List Char := (l.reverse.dropWhile isPyWs).reverse

/-- Python `str.strip()`. -/
def pyStrip (l : List Char) : List Char := pyLstrip (pyRstrip l)

/-- Python `line.strip() == ''`. -/
def isBlankL (l : List Char) : Bool := pyStrip l = ([] : List Char)

/-- Number of leading space characters. -/
def countLeadingSpaces : List Char → Nat
  | ' ' :: cs => countLeadingSpaces cs + 1
  | _ => 0

/-- Number of leading tab characters. -/
def countLeadingTabs : List Char → Nat
  | '\t' :: cs => countLeadingTabs cs + 1
  | _ => 0

/-- `get_indent_level`: `indent_level_re = (    )+` matched at the start;
the greedy match takes every complete four-space group. -/
def get_indent_level (l : List Char) : Nat := countLeadingSpaces l / 4

/-- Replacement of the leading tab run by four spaces each
(`tab_indents_re` branch of the body loop). -/
def tabReplace (l : List Char) : List Char :=
  let n := countLeadingTabs l
  List.replicate (4 * n) ' ' ++ l.drop n

/-- The indent prefix `INDENT * n`. -/
def nIndent (ind : List Char) (n : Nat) : List Char := (List.replicate n ind).flatten

/-- Python `sub in s` (substring test, used for `'assets' in line`). -/
def containsSub (pat l : List Char) : Bool := l.tails.any fun t => pat.isPrefixOf t

/-- The `.replace('.', '/')` applied inside matched tokens. -/
def dotSlash (c : Char) : Char := if c = '.' then '/' else c

/-! ### inline_code_re : `.*?`  (split / findall) -/

/-- Scan for the closing backquote of an inline code span: the content
may not contain a newline (Python `.` does not match `\n`).  Returns
the content before the closing tick and the rest after it. -/
def closeTick : List Char → Option (List Char × List Char)
  | [] => none
  | c :: cs =>
    if c = '\n' then none
    else if c = btick then some ([], cs)
    else (closeTick cs).map fun p => (c :: p.1, p.2)

/-- `inline_code_re.split` / `.findall` in one pass: the result is the
first non-code piece followed by (separator, piece) pairs.  A backquote
with no closing backquote before a newline stays in the current piece
(the regex fails at that position and the scan advances). -/
def splitCodeGo : List Char → Nat → List Char × List (List Char × List Char)
  | l, 0 => (l, [])
  | [], _ => ([], [])
  | c :: cs, n + 1 =>
    if c = btick then
      match closeTick cs with
      | some (mid, rest) =>
        let r := splitCodeGo rest n
        ([], (btick :: (mid ++ [btick]), r.1) :: r.2)
      | none =>
        let r := splitCodeGo cs n
        (c :: r.1, r.2)
    else
      let r := splitCodeGo cs n
      (c :: r.1, r.2)

/-- The inline-code split of a line. -/
def split_code (l : List Char) : List Char × List (List Char × List Char) :=
  splitCodeGo l l.length

/-- `recombine_splits_separators`: interleave pieces and separators back
in original order. -/
def recombine_splits_separators (f : List Char) (ps : List (List Char × List Char)) :
    List Char :=
  f ++ (ps.map fun sp => sp.1 ++ sp.2).flatten

/-- The inline code spans of a line (`inline_code_re.findall`). -/
def code_separators (l : List Char) : List (List Char) := (split_code l).2.map (·.1)

/-! ### embed_token_re / wiki_link_token_re : lazy `.+?` up to `]]` -/

/-- After at least one content character has been consumed, find the
earliest `]]` (content may not contain a newline). -/
def findClose2 : List Char → Option (List Char × List Char)
  | ']' :: ']' :: r => some ([], r)
  | c :: cs =>
    if c = '\n' then none
    else (findClose2 cs).map fun p => (c :: p.1, p.2)
  | [] => none

/-- Lazy `(.+?)\]\]`: at least one character, then the earliest `]]`. -/
def findClose : List Char → Option (List Char × List Char)
  | [] => none
  | c :: cs =>
    if c = '\n' then none
    else (findClose2 cs).map fun p => (c :: p.1, p.2)

/-- `embed_token_re.split` / `.findall` (`!\[\[.+?\]\]`). -/
def embedSplitGo : List Char → Nat → List Char × List (List Char × List Char)
  | l, 0 => (l, [])
  | [], _ => ([], [])
  | '!' :: '[' :: '[' :: cs, n + 1 =>
    (match findClose cs with
     | some (mid, rest) =>
       let r := embedSplitGo rest n
       ([], ('!' :: '[' :: '[' :: (mid ++ [']', ']']), r.1) :: r.2)
     | none =>
       let r := embedSplitGo ('[' :: '[' :: cs) n
       ('!' :: r.1, r.2))
  | c :: cs, n + 1 =>
    let r := embedSplitGo cs n
    (c :: r.1, r.2)

def embed_split (l : List Char) : List Char × List (List Char × List Char) :=
  embedSplitGo l l.length

/-- `wiki_link_token_re.split` / `.findall` (`\[\[.+?\]\]`). -/
def wikiSplitGo : List Char → Nat → List Char × List (List Char × List Char)
  | l, 0 => (l, [])
  | [], _ => ([], [])
  | '[' :: '[' :: cs, n + 1 =>
    (match findClose cs with
     | some (mid, rest) =>
       let r := wikiSplitGo rest n
       ([], ('[' :: '[' :: (mid ++ [']', ']']), r.1) :: r.2)
     | none =>
       let r := wikiSplitGo ('[' :: cs) n
       ('[' :: r.1, r.2))
  | c :: cs, n + 1 =>
    let r := wikiSplitGo cs n
    (c :: r.1, r.2)

def wiki_split (l : List Char) : List Char × List (List Char × List Char) :=
  wikiSplitGo l l.length

/-! ### the substitution regexes -/

/-- Greedy `#(.*)\]\]`: the content may not contain a newline and the
`]]` is the last one reachable (greedy `.*` backtracks from the right).
Returns the content and the rest after the `]]`. -/
def findLastClose : List Char → Option (List Char × List Char)
  | [] => none
  | c :: cs =>
    if c = '\n' then none
    else
      match findLastClose cs with
      | some p => some (c :: p.1, p.2)
      | none =>
        match c, cs with
        | ']', ']' :: r => some r |>.map fun rr => ([], rr)
        | _, _ => none

/-- After the lazy group, the pattern `(#.*)?\]\]` first tries the
anchor group (with greedy `.*`), then the bare `]]`. -/
def tryAnchorClose : List Char → Option (List Char)
  | '#' :: r => (findLastClose r).map (·.2)
  | ']' :: ']' :: r => some r
  | _ => none

/-- The lazy group of `(.+?)(#.*)?\]\]` (also the effective behaviour of
`(.*?|)?(.+?)(#.*)?\]\]`, whose first group always succeeds empty):
grow the group one character at a time, at each boundary trying
`tryAnchorClose` first.  Returns the group and the rest after `]]`. -/
def matchAnchorTail : List Char → Option (List Char × List Char)
  | [] => none
  | c :: cs =>
    if c = '\n' then none
    else
      match tryAnchorClose cs with
      | some rest => some ([c], rest)
      | none => (matchAnchorTail cs).map fun p => (c :: p.1, p.2)

/-- `embed_token_with_anchor_re.sub(r"{{embed [[\1]]}}", ·)`. -/
def embedAnchorSubGo : List Char → Nat → List Char
  | l, 0 => l
  | [], _ => []
  | '!' :: '[' :: '[' :: cs, n + 1 =>
    (match matchAnchorTail cs with
     | some (g, rest) =>
       "\x7b\x7bembed [[".data ++ g ++ "]]\x7d\x7d".data ++ embedAnchorSubGo rest n
     | none => '!' :: embedAnchorSubGo ('[' :: '[' :: cs) n)
  | c :: cs, n + 1 => c :: embedAnchorSubGo cs n

def embed_anchor_sub (l : List Char) : List Char := embedAnchorSubGo l l.length

/-- `wiki_link_token_with_internals_re.sub(r"[[\2]]", ·)`. -/
def linkSubGo : List Char → Nat → List Char
  | l, 0 => l
  | [], _ => []
  | '[' :: '[' :: cs, n + 1 =>
    (match matchAnchorTail cs with
     | some (g, rest) => '[' :: '[' :: (g ++ ']' :: ']' :: linkSubGo rest n)
     | none => '[' :: linkSubGo ('[' :: cs) n)
  | c :: cs, n + 1 => c :: linkSubGo cs n

def link_sub (l : List Char) : List Char := linkSubGo l l.length

/-! ### image_assets_re -/

/-- Lazy `(.*?\))`: earliest `)`, no newline inside. -/
def findCloseParen : List Char → Option (List Char × List Char)
  | ')' :: r => some ([], r)
  | c :: cs =>
    if c = '\n' then none
    else (findCloseParen cs).map fun p => (c :: p.1, p.2)
  | [] => none

/-- Literal `/assets/`. -/
def checkAssets : List Char → Option (List Char)
  | '/' :: 'a' :: 's' :: 's' :: 'e' :: 't' :: 's' :: '/' :: r => some r
  | _ => none

/-- After `![`, the pattern `(.*?)\]\(/assets/(.*?)\)`: the lazy alt text
grows past `](` candidates that are not followed by `/assets/` or have
no closing paren.  Returns (alt, path, rest). -/
def matchImageTail : List Char → Option (List Char × List Char × List Char)
  | [] => none
  | ']' :: '(' :: r =>
    (match checkAssets r with
     | some r' =>
       (match findCloseParen r' with
        | some (p, rest) => some ([], p, rest)
        | none =>
          (matchImageTail ('(' :: r)).map fun q => (']' :: q.1, q.2.1, q.2.2))
     | none =>
       (matchImageTail ('(' :: r)).map fun q => (']' :: q.1, q.2.1, q.2.2))
  | c :: cs =>
    if c = '\n' then none
    else (matchImageTail cs).map fun q => (c :: q.1, q.2.1, q.2.2)

/-- `image_assets_re.sub(r"\1../assets/\3", ·)`. -/
def imageSubGo : List Char → Nat → List Char
  | l, 0 => l
  | [], _ => []
  | '!' :: '[' :: cs, n + 1 =>
    (match matchImageTail cs with
     | some (alt, p, rest) =>
       '!' :: '[' :: (alt ++ ']' :: '(' :: ("../assets/".data ++ p ++ ')' :: imageSubGo rest n))
     | none => '!' :: imageSubGo ('[' :: cs) n)
  | c :: cs, n + 1 => c :: imageSubGo cs n

def image_sub (l : List Char) : List Char := imageSubGo l l.length

/-! ### convert_embeds / convert_internal_links -/

/-- One non-code piece of `convert_embeds`: split by embed tokens,
replace `.` by `/` inside the tokens, recombine, then apply the
anchor-removing substitution. -/
def embedPiece (p : List Char) : List Char :=
  let r := embed_split p
  embed_anchor_sub
    (recombine_splits_separators r.1 (r.2.map fun sp => (sp.1.map dotSlash, sp.2)))

/-- One non-code piece of `convert_internal_links`. -/
def linkPiece (p : List Char) : List Char :=
  let r := wiki_split p
  link_sub
    (recombine_splits_separators r.1 (r.2.map fun sp => (sp.1.map dotSlash, sp.2)))

/-- `convert_embeds`: rewrite embed tokens outside inline code spans,
`![[a.b#x]]` becoming an embed transclusion without anchor. -/
def convert_embeds (l : List Char) : List Char :=
  let r := split_code l
  recombine_splits_separators (embedPiece r.1)
    (r.2.map fun sp => (sp.1, embedPiece sp.2))

/-- `convert_internal_links`: rewrite wiki link tokens outside inline
code spans. -/
def convert_internal_links (l : List Char) : List Char :=
  let r := split_code l
  recombine_splits_separators (linkPiece r.1)
    (r.2.map fun sp => (sp.1, linkPiece sp.2))

/-- The token-rewriting tail of the body loop: embeds, then links, then
the `/assets/` fix, the latter applied to the whole line whenever the
line contains `assets`. -/
def apply_token_rewrites (l : List Char) : List Char :=
  let l1 := convert_internal_links (convert_embeds l)
  if containsSub "assets".data l1 then image_sub l1 else l1

/-! ### the block-context state machine of `process_and_save_file` -/

/-- The strings pushed on `content_stack`. -/
inductive Tag where
  | fenced_code_block
  | indented_code_block
  | heading
  | list
  | blockquote
  | paragraph
  deriving DecidableEq, Repr

/-- The `--remove-empty-lines` choice: `none` / `all` / `trim`. -/
inductive Policy where
  | keep      -- 'none'
  | removeAll -- 'all'
  | trim      -- 'trim'
  deriving DecidableEq, Repr

/-- The configuration of one conversion run. -/
structure Config where
  removeFrontmatter : Bool
  aliasTitle : Bool
  useTitle : Bool
  removeEmptyLines : Policy
  indent : List Char  -- INDENT: '\t' or '    '
  deriving Repr

/-- The per-document mutable state of `process_and_save_file`.  The
stack top (`content_stack[-1]`) is the head of `contentStack`; `output`
is in final order. -/
structure St where
  firstLineChecked : Bool
  inFrontmatter : Bool
  inBody : Bool
  frontmatterHandled : Bool
  headingLevel : Nat
  indentLevel : Nat
  contentStack : List Tag
  previousLine : Option (List Char)
  output : List (List Char)
  deriving DecidableEq, Repr

def initSt : St :=
  { firstLineChecked := false, inFrontmatter := false, inBody := false,
    frontmatterHandled := false, headingLevel := 0, indentLevel := 0,
    contentStack := [], previousLine := none, output := [] }

/-- `push_to_stack_no_repeat`. -/
def push_to_stack_no_repeat (stack : List Tag) (v : Tag) : List Tag :=
  if stack.head? = some v then stack else v :: stack

/-- The frontmatter section of the loop (only reached while
`frontmatter_handled` is false). -/
def frontmatterStep (cfg : Config) (st : St) (line : List Char) : St :=
  if "---".data.isPrefixOf (pyRstrip line) then
    if !st.inFrontmatter then
      { st with inFrontmatter := true,
                output := st.output ++
                  (if !cfg.removeFrontmatter then ["- \x60\x60\x60\n".data, "  ".data ++ line]
                   else []) }
    else
      { st with inFrontmatter := false, frontmatterHandled := true,
                output := st.output ++
                  (if !cfg.removeFrontmatter then ["  ".data ++ line, "  \x60\x60\x60\n".data]
                   else []) }
  else if "title:".data.isPrefixOf line then
    if cfg.aliasTitle then
      { st with output := ("alias:: ".data ++ pyLstrip (line.drop 6)) :: st.output }
    else if cfg.useTitle then
      { st with output := ("title:: ".data ++ pyLstrip (line.drop 6)) :: st.output }
    else if !cfg.removeFrontmatter then
      { st with output := st.output ++ ["  ".data ++ line] }
    else st
  else if !cfg.removeFrontmatter then
    { st with output := st.output ++ ["  ".data ++ line] }
  else st

/-- The "between frontmatter and body" section.  `.inr` means the line
was consumed (`continue`), `.inl` that processing falls through to the
body with the updated state. -/
def preBody (cfg : Config) (st : St) (line : List Char) : St ⊕ St :=
  if isBlankL line then
    let st := { st with previousLine := some line }
    if cfg.removeEmptyLines = Policy.removeAll ∨ cfg.removeEmptyLines = Policy.trim then
      .inr st
    else
      .inl { st with output := st.output ++ ["-\n".data] }
  else
    .inl { st with inBody := true }

/-- Fence line (` ``` ` after lstrip): open or close a fenced code block. -/
def fenceStep (cfg : Config) (st : St) (line0 line : List Char) : St :=
  if st.contentStack.head? ≠ some Tag.fenced_code_block then
    -- start
    let st := if st.contentStack.head? = some Tag.heading then
                { st with indentLevel := 0, contentStack := [] } else st
    let r :=
      if st.contentStack.contains Tag.list then
        let bi := get_indent_level line
        if bi ≥ st.indentLevel then
          (st, nIndent cfg.indent st.headingLevel ++ line)
        else
          ({ st with indentLevel := bi },
           nIndent cfg.indent st.headingLevel ++ nIndent cfg.indent bi ++
             "- ".data ++ pyLstrip line)
      else
        if st.contentStack.head? = some Tag.paragraph then
          (st, nIndent cfg.indent st.headingLevel ++ "  ".data ++ line)
        else
          ({ st with indentLevel := 0, contentStack := [] },
           nIndent cfg.indent st.headingLevel ++ "- ".data ++ line)
    { r.1 with contentStack := push_to_stack_no_repeat r.1.contentStack Tag.fenced_code_block,
               output := r.1.output ++ [r.2], previousLine := some line0 }
  else
    -- end
    let line' :=
      if st.contentStack.contains Tag.list then
        nIndent cfg.indent st.headingLevel ++ line
      else
        nIndent cfg.indent st.headingLevel ++ "  ".data ++ line
    { st with contentStack := st.contentStack.tail,
              output := st.output ++ [line'], previousLine := some line0 }

/-- A line inside a fenced code block: verbatim, only re-indented. -/
def fencedContentStep (cfg : Config) (st : St) (line0 line : List Char) : St :=
  let line' :=
    if st.contentStack.contains Tag.list then
      nIndent cfg.indent st.headingLevel ++ line
    else
      nIndent cfg.indent st.headingLevel ++ "  ".data ++ line
  { st with output := st.output ++ [line'], previousLine := some line0 }

/-- The indented-code section.  `.inr` = line consumed as indented code
content, `.inl` = fall through (possibly after emitting the closing
fence). -/
def indentedOpen (cfg : Config) (st : St) : St :=
  if (st.contentStack = [] ∨ st.contentStack.head? = some Tag.heading)
      ∧ st.contentStack.head? ≠ some Tag.indented_code_block then
    let st := if st.contentStack.head? = some Tag.heading then
                { st with indentLevel := 0, contentStack := [] } else st
    { st with output := st.output ++
                [nIndent cfg.indent st.headingLevel ++ "- \x60\x60\x60\n".data],
              contentStack := push_to_stack_no_repeat st.contentStack
                Tag.indented_code_block }
  else st

def indentedPhase (cfg : Config) (st : St) (line0 line : List Char) : St ⊕ St :=
  if "    ".data.isPrefixOf line then
    let st := indentedOpen cfg st
    if st.contentStack.head? = some Tag.indented_code_block then
      let o := nIndent cfg.indent st.headingLevel ++ "  ".data ++ line.drop 4
      .inr { st with output := st.output ++ [o], previousLine := some line0 }
    else .inl st
  else if st.contentStack.head? = some Tag.indented_code_block then
    let o := nIndent cfg.indent st.headingLevel ++ "  \x60\x60\x60\n".data
    .inl { st with output := st.output ++ [o], contentStack := st.contentStack.tail }
  else .inl st

/-- The empty-line section (keep / remove-all / trim).  `none` models
the `previous_line.strip()` crash when `previous_line` is `None`. -/
def blankStep (cfg : Config) (st : St) (line0 line : List Char) : Option St :=
  let st := if st.contentStack.head? ≠ some Tag.heading then
              { st with indentLevel := 0, contentStack := [] } else st
  let o := nIndent cfg.indent st.headingLevel ++ "- ".data ++ line
  match cfg.removeEmptyLines with
  | Policy.keep =>
    some { st with output := st.output ++ [o], previousLine := some line0 }
  | Policy.removeAll => some { st with previousLine := some line0 }
  | Policy.trim =>
    if st.contentStack.head? = some Tag.heading then
      some { st with previousLine := some line0 }
    else
      match st.previousLine with
      | none => none
      | some p =>
        if !isBlankL p then
          some { st with output := st.output ++ [o], previousLine := some line0 }
        else some { st with previousLine := some line0 }

/-- Horizontal rule lines (`---` / `***` after strip). -/
def hrStep (cfg : Config) (st : St) (line0 line : List Char) : St :=
  let o := nIndent cfg.indent st.headingLevel ++ "- ".data ++ pyLstrip line
  { st with output := st.output ++ [o], previousLine := some line0 }

/-- `heading_re.match`: the heading depth when the line starts with
`#`s followed by a space. -/
def heading_try (line : List Char) : Option Nat :=
  match line.head? with
  | some '#' =>
    let n := (line.takeWhile (· = '#')).length
    if (line.drop n).head? = some ' ' then some n else none
  | _ => none

/-- A heading of depth `n`: set the outline base depth, clear the
stack, emit at depth `n - 1`, link-convert (but not embed-convert). -/
def headingStep (cfg : Config) (st : St) (line0 line : List Char) (n : Nat) : St :=
  let line' := convert_internal_links (nIndent cfg.indent (n - 1) ++ "- ".data ++ line)
  { st with headingLevel := n, indentLevel := 0,
            contentStack := push_to_stack_no_repeat [] Tag.heading,
            output := st.output ++ [line'], previousLine := some line0 }

/-- Blockquote lines (lstripped line starts with `>`). -/
def quoteStep (cfg : Config) (st : St) (line0 line : List Char) : St :=
  let r :=
    if st.contentStack.contains Tag.list then
      let bi := get_indent_level line
      if bi ≥ st.indentLevel then
        (st, nIndent cfg.indent st.headingLevel ++ line)
      else
        ({ st with indentLevel := bi },
         nIndent cfg.indent st.headingLevel ++ nIndent cfg.indent bi ++
           "- ".data ++ pyLstrip line)
    else
      if st.contentStack.head? = some Tag.blockquote then
        (st, nIndent cfg.indent st.headingLevel ++ "  ".data ++ line)
      else
        ({ st with indentLevel := 0, contentStack := [] },
         nIndent cfg.indent st.headingLevel ++ "- ".data ++ line)
  let line' := convert_internal_links r.2
  { r.1 with contentStack := push_to_stack_no_repeat r.1.contentStack Tag.blockquote,
             output := r.1.output ++ [line'], previousLine := some line0 }

/-- `bullet_re.sub(r"\1-\3", line)`: normalize the first bullet marker
after leading spaces to `-`; if the line does not match, it is
unchanged. -/
def bullet_sub (line : List Char) : List Char :=
  let sp := line.takeWhile (· = ' ')
  match (line.drop sp.length).head? with
  | some m =>
    if m = '-' ∨ m = '*' ∨ m = '+' then sp ++ '-' :: line.drop (sp.length + 1)
    else line
  | none => line

/-- Python `previous_line and previous_line.strip() != ''` (the `None`
case is falsy, no crash). -/
def prevNonblank (st : St) : Bool :=
  match st.previousLine with
  | some p => !isBlankL p
  | none => false

/-- List items and plain lines, followed by the token rewrites. -/
def listOrParaStep (cfg : Config) (st : St) (line0 line : List Char) : St :=
  let t2 := (pyLstrip line).take 2
  let r :=
    if t2 = ['-', ' '] ∨ t2 = ['*', ' '] ∨ t2 = ['+', ' '] then
      ({ st with indentLevel := get_indent_level line,
                 contentStack := push_to_stack_no_repeat st.contentStack Tag.list },
       nIndent cfg.indent st.headingLevel ++ bullet_sub line)
    else
      let bi := get_indent_level line
      if prevNonblank st ∧ bi ≥ st.indentLevel then
        (st, nIndent cfg.indent st.headingLevel ++ "  ".data ++ line)
      else
        ({ st with indentLevel := 0,
                   contentStack := push_to_stack_no_repeat [] Tag.paragraph },
         nIndent cfg.indent st.headingLevel ++ "- ".data ++ line)
  let line' := apply_token_rewrites r.2
  { r.1 with output := r.1.output ++ [line'], previousLine := some line0 }

/-- The body of the per-line loop after the frontmatter and pre-body
sections.  `line0` is `unprocessed_line`. -/
def bodyMain (cfg : Config) (st : St) (line0 : List Char) : Option St :=
  match line0.head? with
  | none => none  -- Python `line[0]` IndexError
  | some c0 =>
    let line := if c0 = '\t' then tabReplace line0 else line0
    if "\x60\x60\x60".data.isPrefixOf (pyLstrip line) then
      some (fenceStep cfg st line0 line)
    else if st.contentStack.head? = some Tag.fenced_code_block then
      some (fencedContentStep cfg st line0 line)
    else
      match indentedPhase cfg st line0 line with
      | .inr st' => some st'
      | .inl st =>
        if isBlankL line then blankStep cfg st line0 line
        else if pyStrip line = "---".data ∨ pyStrip line = "***".data then
          some (hrStep cfg st line0 line)
        else
          match heading_try line with
          | some n => some (headingStep cfg st line0 line n)
          | none =>
            match (pyLstrip line).head? with
            | none => none  -- Python `line.lstrip()[0]` IndexError
            | some h =>
              if h = '>' then some (quoteStep cfg st line0 line)
              else some (listOrParaStep cfg st line0 line)

/-- One iteration of the `for line in source_file` loop. -/
def processLine (cfg : Config) (st : St) (line : List Char) : Option St :=
  let st :=
    if !st.firstLineChecked then
      { st with firstLineChecked := true,
                frontmatterHandled := st.frontmatterHandled ||
                  !("---".data.isPrefixOf (pyRstrip line)) }
    else st
  if !st.frontmatterHandled then
    some (frontmatterStep cfg st line)
  else
    match (if !st.inBody then preBody cfg st line else .inl st) with
    | .inr st' => some st'
    | .inl st => bodyMain cfg st line

/-- The whole loop. -/
def processLines (cfg : Config) : St → List (List Char) → Option St
  | st, [] => some st
  | st, l :: ls =>
    match processLine cfg st l with
    | some st' => processLines cfg st' ls
    | none => none

/-- `process_and_save_file` on a document given as its list of lines:
the loop, then the output is flushed as is (nothing is appended after
the loop). -/
def process_file (cfg : Config) (lines : List (List Char)) : Option (List (List Char)) :=
  (processLines cfg initSt lines).map (·.output)

/-! ## Configurations used in concrete statements -/

set_option maxRecDepth 100000

/-- Default CLI options: keep frontmatter, no title handling, trim empty
lines, tab indent. -/
def cfgTrimTab : Config :=
  { removeFrontmatter := false, aliasTitle := false, useTitle := false,
    removeEmptyLines := Policy.trim, indent := ['\t'] }

/-- Same but with `--remove-empty-lines all`. -/
def cfgAllTab : Config := { cfgTrimTab with removeEmptyLines := Policy.removeAll }

/-- Same but with `--remove-empty-lines none`. -/
def cfgKeepTab : Config := { cfgTrimTab with removeEmptyLines := Policy.keep }

/-! ## C1 -/

/-- C1: the document `# Title\n\nSome *text* with [[a.b.c]] and ![[x.y#^1]].\n`
converted with the trim policy, tab indent and no frontmatter options
yields exactly two lines: the depth-0 bulleted heading `- # Title`, then
a depth-1 paragraph bullet (one tab) containing the link `[[a/b/c]]` and
the embed transclusion of `x/y`, with no blank-line bullet in between. -/
theorem C1_scenario :
    process_file cfgTrimTab
      ["# Title\n".data, "\n".data,
       "Some *text* with [[a.b.c]] and ![[x.y#^1]].\n".data] =
    some ["- # Title\n".data,
      "\t- Some *text* with [[a/b/c]] and \x7b\x7bembed [[x/y]]\x7d\x7d.\n".data] := by
  decide

/-! ## C9 -/

/-- C9: a line with two anchored embed tokens and text between them is
collapsed by `convert_embeds` into a single transclusion of the first
target: the greedy anchor `#.*` runs to the last `]]` of the line, so
the intervening text and the second embed are discarded. -/
theorem C9_greedy_anchor :
    convert_embeds "![[a#x]] mid ![[b#y]]".data =
      "\x7b\x7bembed [[a]]\x7d\x7d".data := by
  decide

/-! ## C2 (counterexample) -/

/-- C2 counterexample: an aliased link `[[alias|target]]` is NOT rewritten
to a reference containing only `target`: the lazy first group of
`wiki_link_token_with_internals_re` always succeeds empty, so group 2
keeps the whole `alias|target` text. -/
theorem C2_alias_kept :
    convert_internal_links "[[alias|target]]".data = "[[alias|target]]".data ∧
    convert_internal_links "[[alias|target]]".data ≠ "[[target]]".data := by
  constructor
  · decide
  · decide

/-! ## C3 (counterexample) -/

/-- C3 counterexample: the `/assets/` image-path rewrite is applied to the
whole line, inline code spans included: a body line whose code span
contains `![a](/assets/b)` has the span text rewritten, so the span is
not byte-identical in the output. -/
theorem C3_assets_inside_code_span :
    process_file cfgTrimTab ["x \x60![a](/assets/b)\x60 y\n".data] =
      some ["- x \x60![a](../assets/b)\x60 y\n".data] ∧
    code_separators "- x \x60![a](/assets/b)\x60 y\n".data =
      ["\x60![a](/assets/b)\x60".data] ∧
    code_separators "- x \x60![a](../assets/b)\x60 y\n".data =
      ["\x60![a](../assets/b)\x60".data] ∧
    code_separators "- x \x60![a](../assets/b)\x60 y\n".data ≠
      code_separators "- x \x60![a](/assets/b)\x60 y\n".data := by
  refine ⟨by decide, by decide, by decide, by decide⟩

/-! ## C4 (counterexample) -/

/-- C4 counterexample: a document that ends inside an indented code block
is flushed without any synthetic closing fence: the output of
`    x\n` is just the opening fence bullet `- ``` ` and the code line;
no output line strips to a bare closing fence. -/
theorem C4_no_eof_close :
    process_file cfgTrimTab ["    x\n".data] =
      some ["- \x60\x60\x60\n".data, "  x\n".data] ∧
    (["- \x60\x60\x60\n".data, "  x\n".data].filter
        fun o => pyStrip o = "\x60\x60\x60".data).length = 0 := by
  refine ⟨by decide, by decide⟩

/-! ## C5 (counterexample) -/

/-- C5 counterexample: the first-line test is `rstrip().startswith('---')`,
not equality with `---`: the line `----\n` is not a three-dash delimiter
line, yet it opens a frontmatter region, and the following line is
consumed as frontmatter instead of proceeding to body processing. -/
theorem C5_startswith_not_exact :
    (processLine cfgTrimTab initSt "----\n".data).map
        (fun s => (s.inFrontmatter, s.frontmatterHandled)) = some (true, false) ∧
    pyRstrip "----\n".data ≠ "---".data ∧
    process_file cfgTrimTab ["----\n".data, "x\n".data] =
      some ["- \x60\x60\x60\n".data, "  ----\n".data, "  x\n".data] := by
  refine ⟨by decide, by decide, by decide⟩

/-! ## C6 (counterexample) -/

/-- C6 counterexample: a whitespace-only line with four leading spaces is
handled by the indented-code rule, not the blank-line policy: with the
remove-all policy, three such blank lines after an emptied stack produce
an indented code block (four output lines) instead of zero lines. -/
theorem C6_four_space_blanks :
    process_file cfgAllTab
      ["x\n".data, "\n".data, "    \n".data, "    \n".data, "    \n".data] =
      some ["- x\n".data, "- \x60\x60\x60\n".data, "  \n".data, "  \n".data, "  \n".data] ∧
    (∀ l ∈ ["\n".data, "    \n".data], isBlankL l = true) ∧
    ([ "- x\n".data, "- \x60\x60\x60\n".data, "  \n".data, "  \n".data, "  \n".data] :
        List (List Char)).length = 5 := by
  refine ⟨by decide, by decide, by decide⟩

/-! ## Helper lemmas on strips and blanks -/

theorem mem_pyRstrip {c : Char} {l : List Char} (h : c ∈ pyRstrip l) : c ∈ l := by
  unfold pyRstrip at h
  rw [List.mem_reverse] at h
  exact List.mem_reverse.mp ((List.dropWhile_sublist isPyWs).subset h)

theorem isBlankL_iff_all {l : List Char} :
    isBlankL l = true ↔ ∀ c ∈ l, isPyWs c = true := by
  unfold isBlankL
  rw [decide_eq_true_iff]
  unfold pyStrip pyLstrip
  rw [List.dropWhile_eq_nil_iff]
  constructor
  · intro h c hc
    have hsplit := List.takeWhile_append_dropWhile isPyWs l.reverse
    have hc' : c ∈ l.reverse := List.mem_reverse.mpr hc
    rw [← hsplit] at hc'
    rcases List.mem_append.mp hc' with h1 | h1
    · exact List.mem_takeWhile_imp h1
    · exact h c (by unfold pyRstrip; exact List.mem_reverse.mpr h1)
  · intro h c hc
    exact h c (mem_pyRstrip hc)

theorem pyLstrip_eq_nil_of_blank {l : List Char} (h : isBlankL l = true) :
    pyLstrip l = [] := by
  unfold pyLstrip
  rw [List.dropWhile_eq_nil_iff]
  exact fun c hc => isBlankL_iff_all.mp h c hc

theorem blank_of_pyLstrip_eq_nil {l : List Char} (h : pyLstrip l = []) :
    isBlankL l = true := by
  rw [isBlankL_iff_all]
  unfold pyLstrip at h
  exact fun c hc => List.dropWhile_eq_nil_iff.mp h c hc

theorem countLeadingTabs_cons_tab (cs : List Char) :
    countLeadingTabs ('\t' :: cs) = countLeadingTabs cs + 1 := rfl

theorem countLeadingTabs_cons_ne {c : Char} (cs : List Char) (h : c ≠ '\t') :
    countLeadingTabs (c :: cs) = 0 := by
  unfold countLeadingTabs
  split
  · rename_i heq
    cases heq
    exact absurd rfl h
  · rfl

theorem countLeadingTabs_spec :
    ∀ l : List Char,
      l = List.replicate (countLeadingTabs l) '\t' ++ l.drop (countLeadingTabs l)
  | [] => rfl
  | c :: cs => by
    by_cases h : c = '\t'
    · subst h
      rw [countLeadingTabs_cons_tab]
      simp only [List.replicate_succ, List.drop_succ_cons, List.cons_append]
      exact congrArg (List.cons '\t') (countLeadingTabs_spec cs)
    · rw [countLeadingTabs_cons_ne cs h]
      simp

theorem isBlankL_tabReplace (l : List Char) :
    isBlankL (tabReplace l) = isBlankL l := by
  rcases h : isBlankL l with _ | _
  · rcases h2 : isBlankL (tabReplace l) with _ | _
    · rfl
    · exfalso
      have hall := isBlankL_iff_all.mp h2
      have : isBlankL l = true := by
        rw [isBlankL_iff_all]
        intro c hc
        conv at hc => rw [countLeadingTabs_spec l]
        rcases List.mem_append.mp hc with h1 | h1
        · simp [List.eq_of_mem_replicate h1, isPyWs]
        · exact hall c (by unfold tabReplace; exact List.mem_append_right _ h1)
      rw [this] at h; cases h
  · rw [isBlankL_iff_all]
    intro c hc
    unfold tabReplace at hc
    rcases List.mem_append.mp hc with h1 | h1
    · simp [List.eq_of_mem_replicate h1, isPyWs]
    · exact isBlankL_iff_all.mp h c ((List.drop_sublist _ _).subset h1)

/-! ## Flag preservation of the step functions -/

theorem push_head (s : List Tag) (v : Tag) :
    (push_to_stack_no_repeat s v).head? = some v := by
  unfold push_to_stack_no_repeat
  split <;> simp [*]

theorem fenceStep_fields (cfg : Config) (st : St) (l0 l : List Char) :
    (fenceStep cfg st l0 l).firstLineChecked = st.firstLineChecked ∧
    (fenceStep cfg st l0 l).inFrontmatter = st.inFrontmatter ∧
    (fenceStep cfg st l0 l).frontmatterHandled = st.frontmatterHandled ∧
    (fenceStep cfg st l0 l).inBody = st.inBody ∧
    (fenceStep cfg st l0 l).headingLevel = st.headingLevel ∧
    (fenceStep cfg st l0 l).previousLine = some l0 := by
  unfold fenceStep
  by_cases h1 : st.contentStack.head? = some Tag.fenced_code_block <;>
  by_cases h2 : st.contentStack.head? = some Tag.heading <;>
  by_cases h3 : Tag.list ∈ st.contentStack <;>
  by_cases h4 : st.contentStack.head? = some Tag.paragraph <;>
  by_cases h5 : st.indentLevel ≤ get_indent_level l <;>
  simp [h1, h2, h3, h4, h5]

theorem fencedContentStep_fields (cfg : Config) (st : St) (l0 l : List Char) :
    (fencedContentStep cfg st l0 l).firstLineChecked = st.firstLineChecked ∧
    (fencedContentStep cfg st l0 l).inFrontmatter = st.inFrontmatter ∧
    (fencedContentStep cfg st l0 l).frontmatterHandled = st.frontmatterHandled ∧
    (fencedContentStep cfg st l0 l).inBody = st.inBody ∧
    (fencedContentStep cfg st l0 l).headingLevel = st.headingLevel ∧
    (fencedContentStep cfg st l0 l).previousLine = some l0 := by
  unfold fencedContentStep
  by_cases h : Tag.list ∈ st.contentStack <;> simp [h]

theorem hrStep_fields (cfg : Config) (st : St) (l0 l : List Char) :
    (hrStep cfg st l0 l).firstLineChecked = st.firstLineChecked ∧
    (hrStep cfg st l0 l).inFrontmatter = st.inFrontmatter ∧
    (hrStep cfg st l0 l).frontmatterHandled = st.frontmatterHandled ∧
    (hrStep cfg st l0 l).inBody = st.inBody ∧
    (hrStep cfg st l0 l).headingLevel = st.headingLevel ∧
    (hrStep cfg st l0 l).previousLine = some l0 := by
  simp [hrStep]

theorem headingStep_fields (cfg : Config) (st : St) (l0 l : List Char) (n : Nat) :
    (headingStep cfg st l0 l n).firstLineChecked = st.firstLineChecked ∧
    (headingStep cfg st l0 l n).inFrontmatter = st.inFrontmatter ∧
    (headingStep cfg st l0 l n).frontmatterHandled = st.frontmatterHandled ∧
    (headingStep cfg st l0 l n).inBody = st.inBody ∧
    (headingStep cfg st l0 l n).previousLine = some l0 := by
  simp [headingStep]

theorem quoteStep_fields (cfg : Config) (st : St) (l0 l : List Char) :
    (quoteStep cfg st l0 l).firstLineChecked = st.firstLineChecked ∧
    (quoteStep cfg st l0 l).inFrontmatter = st.inFrontmatter ∧
    (quoteStep cfg st l0 l).frontmatterHandled = st.frontmatterHandled ∧
    (quoteStep cfg st l0 l).inBody = st.inBody ∧
    (quoteStep cfg st l0 l).headingLevel = st.headingLevel ∧
    (quoteStep cfg st l0 l).previousLine = some l0 := by
  unfold quoteStep
  by_cases h1 : Tag.list ∈ st.contentStack <;>
  by_cases h2 : st.contentStack.head? = some Tag.blockquote <;>
  by_cases h3 : st.indentLevel ≤ get_indent_level l <;>
  simp [h1, h2, h3]

theorem listOrParaStep_fields (cfg : Config) (st : St) (l0 l : List Char) :
    (listOrParaStep cfg st l0 l).firstLineChecked = st.firstLineChecked ∧
    (listOrParaStep cfg st l0 l).inFrontmatter = st.inFrontmatter ∧
    (listOrParaStep cfg st l0 l).frontmatterHandled = st.frontmatterHandled ∧
    (listOrParaStep cfg st l0 l).inBody = st.inBody ∧
    (listOrParaStep cfg st l0 l).headingLevel = st.headingLevel ∧
    (listOrParaStep cfg st l0 l).previousLine = some l0 := by
  unfold listOrParaStep
  by_cases h1 : (pyLstrip l).take 2 = ['-', ' '] ∨ (pyLstrip l).take 2 = ['*', ' '] ∨
      (pyLstrip l).take 2 = ['+', ' '] <;>
  by_cases h2 : prevNonblank st = true ∧ get_indent_level l ≥ st.indentLevel <;>
  simp [h1, h2]

theorem frontmatterStep_fields (cfg : Config) (st : St) (l : List Char) :
    (frontmatterStep cfg st l).firstLineChecked = st.firstLineChecked ∧
    (frontmatterStep cfg st l).inBody = st.inBody ∧
    (frontmatterStep cfg st l).previousLine = st.previousLine ∧
    (frontmatterStep cfg st l).headingLevel = st.headingLevel ∧
    (frontmatterStep cfg st l).indentLevel = st.indentLevel ∧
    (frontmatterStep cfg st l).contentStack = st.contentStack := by
  unfold frontmatterStep
  by_cases h1 : "---".data.isPrefixOf (pyRstrip l) = true <;>
  by_cases h2 : st.inFrontmatter = true <;>
  by_cases h3 : "title:".data.isPrefixOf l = true <;>
  by_cases h4 : cfg.aliasTitle = true <;>
  by_cases h5 : cfg.useTitle = true <;>
  by_cases h6 : cfg.removeFrontmatter = true <;>
  simp [h1, h2, h3, h4, h5, h6]

theorem frontmatterStep_delim_open (cfg : Config) (st : St) (l : List Char)
    (hd : "---".data.isPrefixOf (pyRstrip l) = true) (hin : st.inFrontmatter = false) :
    (frontmatterStep cfg st l).inFrontmatter = true ∧
    (frontmatterStep cfg st l).frontmatterHandled = st.frontmatterHandled := by
  unfold frontmatterStep
  by_cases h6 : cfg.removeFrontmatter = true <;> simp [hd, hin, h6]

theorem frontmatterStep_delim_close (cfg : Config) (st : St) (l : List Char)
    (hd : "---".data.isPrefixOf (pyRstrip l) = true) (hin : st.inFrontmatter = true) :
    (frontmatterStep cfg st l).inFrontmatter = false ∧
    (frontmatterStep cfg st l).frontmatterHandled = true := by
  unfold frontmatterStep
  by_cases h6 : cfg.removeFrontmatter = true <;> simp [hd, hin, h6]

theorem frontmatterStep_nondelim (cfg : Config) (st : St) (l : List Char)
    (hd : ¬ "---".data.isPrefixOf (pyRstrip l) = true) :
    (frontmatterStep cfg st l).inFrontmatter = st.inFrontmatter ∧
    (frontmatterStep cfg st l).frontmatterHandled = st.frontmatterHandled := by
  unfold frontmatterStep
  by_cases h3 : "title:".data.isPrefixOf l = true <;>
  by_cases h4 : cfg.aliasTitle = true <;>
  by_cases h5 : cfg.useTitle = true <;>
  by_cases h6 : cfg.removeFrontmatter = true <;>
  simp [hd, h3, h4, h5, h6]

theorem blankStep_total (cfg : Config) (st : St) (l0 l : List Char)
    (hp : st.previousLine.isSome = true) :
    ∃ st', blankStep cfg st l0 l = some st' ∧
      st'.firstLineChecked = st.firstLineChecked ∧
      st'.inFrontmatter = st.inFrontmatter ∧
      st'.frontmatterHandled = st.frontmatterHandled ∧
      st'.inBody = st.inBody ∧
      st'.headingLevel = st.headingLevel ∧
      st'.previousLine = some l0 := by
  rcases hq : st.previousLine with _ | q
  · rw [hq] at hp; cases hp
  · unfold blankStep
    rcases cfg.removeEmptyLines <;>
    by_cases h1 : st.contentStack.head? = some Tag.heading <;>
    by_cases h2 : isBlankL q = true <;>
    simp [h1, h2, hq]

theorem indentedOpen_fields (cfg : Config) (st : St) :
    (indentedOpen cfg st).firstLineChecked = st.firstLineChecked ∧
    (indentedOpen cfg st).inFrontmatter = st.inFrontmatter ∧
    (indentedOpen cfg st).frontmatterHandled = st.frontmatterHandled ∧
    (indentedOpen cfg st).inBody = st.inBody ∧
    (indentedOpen cfg st).headingLevel = st.headingLevel ∧
    (indentedOpen cfg st).previousLine = st.previousLine := by
  unfold indentedOpen
  by_cases h2 : (st.contentStack = [] ∨ st.contentStack.head? = some Tag.heading) ∧
      st.contentStack.head? ≠ some Tag.indented_code_block <;>
  by_cases h4 : st.contentStack.head? = some Tag.heading <;>
  by_cases h5 : st.contentStack = [] <;>
  simp [h2, h4, h5]

theorem indentedPhase_inl (cfg : Config) (st : St) (l0 l : List Char) (st' : St)
    (h : indentedPhase cfg st l0 l = .inl st') :
    st'.firstLineChecked = st.firstLineChecked ∧
    st'.inFrontmatter = st.inFrontmatter ∧
    st'.frontmatterHandled = st.frontmatterHandled ∧
    st'.inBody = st.inBody ∧
    st'.headingLevel = st.headingLevel ∧
    st'.previousLine = st.previousLine := by
  unfold indentedPhase at h
  by_cases h1 : "    ".data.isPrefixOf l = true
  · rw [if_pos h1] at h
    by_cases h3 : (indentedOpen cfg st).contentStack.head? = some Tag.indented_code_block
    · rw [if_pos h3] at h
      exact absurd h (by simp)
    · rw [if_neg h3] at h
      injection h with h
      subst h
      exact indentedOpen_fields cfg st
  · rw [if_neg h1] at h
    by_cases h3 : st.contentStack.head? = some Tag.indented_code_block
    · rw [if_pos h3] at h
      injection h with h
      subst h
      simp
    · rw [if_neg h3] at h
      injection h with h
      subst h
      simp

theorem indentedPhase_inr (cfg : Config) (st : St) (l0 l : List Char) (st' : St)
    (h : indentedPhase cfg st l0 l = .inr st') :
    st'.firstLineChecked = st.firstLineChecked ∧
    st'.inFrontmatter = st.inFrontmatter ∧
    st'.frontmatterHandled = st.frontmatterHandled ∧
    st'.inBody = st.inBody ∧
    st'.headingLevel = st.headingLevel ∧
    st'.previousLine = some l0 := by
  unfold indentedPhase at h
  by_cases h1 : "    ".data.isPrefixOf l = true
  · rw [if_pos h1] at h
    by_cases h3 : (indentedOpen cfg st).contentStack.head? = some Tag.indented_code_block
    · rw [if_pos h3] at h
      injection h with h
      subst h
      have hf := indentedOpen_fields cfg st
      simp [hf.1, hf.2.1, hf.2.2.1, hf.2.2.2.1, hf.2.2.2.2.1]
    · rw [if_neg h3] at h
      exact absurd h (by simp)
  · rw [if_neg h1] at h
    by_cases h3 : st.contentStack.head? = some Tag.indented_code_block
    · rw [if_pos h3] at h
      exact absurd h (by simp)
    · rw [if_neg h3] at h
      exact absurd h (by simp)

theorem head?_pyLstrip_of_not_blank {l : List Char} (h : isBlankL l = false) :
    ∃ c, (pyLstrip l).head? = some c := by
  rcases hh : (pyLstrip l).head? with _ | c
  · rw [List.head?_eq_none_iff] at hh
    rw [blank_of_pyLstrip_eq_nil hh] at h
    cases h
  · exact ⟨c, rfl⟩

theorem bodyMain_spec (cfg : Config) (st : St) (c0 : Char) (l0' : List Char)
    (hp : st.previousLine.isSome = true ∨ isBlankL (c0 :: l0') = false) :
    ∃ st', bodyMain cfg st (c0 :: l0') = some st' ∧
      st'.firstLineChecked = st.firstLineChecked ∧
      st'.inFrontmatter = st.inFrontmatter ∧
      st'.frontmatterHandled = st.frontmatterHandled ∧
      st'.inBody = st.inBody ∧
      st'.previousLine = some (c0 :: l0') := by
  unfold bodyMain
  simp only [List.head?_cons]
  have hbl : isBlankL (if c0 = '\t' then tabReplace (c0 :: l0') else (c0 :: l0')) =
      isBlankL (c0 :: l0') := by
    split
    · exact isBlankL_tabReplace _
    · rfl
  generalize hline : (if c0 = '\t' then tabReplace (c0 :: l0') else (c0 :: l0')) = line
  rw [hline] at hbl
  by_cases hfence : "\x60\x60\x60".data.isPrefixOf (pyLstrip line) = true
  · rw [if_pos hfence]
    have hf := fenceStep_fields cfg st (c0 :: l0') line
    exact ⟨_, rfl, hf.1, hf.2.1, hf.2.2.1, hf.2.2.2.1, hf.2.2.2.2.2⟩
  · rw [if_neg hfence]
    by_cases hfc : st.contentStack.head? = some Tag.fenced_code_block
    · rw [if_pos hfc]
      have hf := fencedContentStep_fields cfg st (c0 :: l0') line
      exact ⟨_, rfl, hf.1, hf.2.1, hf.2.2.1, hf.2.2.2.1, hf.2.2.2.2.2⟩
    · rw [if_neg hfc]
      rcases hip : indentedPhase cfg st (c0 :: l0') line with st2 | st2
      · -- fell through the indented-code section
        have hfl := indentedPhase_inl cfg st (c0 :: l0') line st2 hip
        simp only []
        by_cases hb : isBlankL line = true
        · rw [if_pos hb]
          have hprev : st2.previousLine.isSome = true := by
            rcases hp with hp | hp
            · rw [hfl.2.2.2.2.2]; exact hp
            · rw [hbl] at hb; rw [hb] at hp; cases hp
          obtain ⟨st3, hst3, hf3⟩ := blankStep_total cfg st2 (c0 :: l0') line hprev
          refine ⟨st3, hst3, ?_, ?_, ?_, ?_, ?_⟩
          · rw [hf3.1, hfl.1]
          · rw [hf3.2.1, hfl.2.1]
          · rw [hf3.2.2.1, hfl.2.2.1]
          · rw [hf3.2.2.2.1, hfl.2.2.2.1]
          · exact hf3.2.2.2.2.2
        · rw [if_neg hb]
          by_cases hhr : pyStrip line = "---".data ∨ pyStrip line = "***".data
          · rw [if_pos hhr]
            have hf := hrStep_fields cfg st2 (c0 :: l0') line
            refine ⟨_, rfl, ?_, ?_, ?_, ?_, hf.2.2.2.2.2⟩
            · rw [hf.1, hfl.1]
            · rw [hf.2.1, hfl.2.1]
            · rw [hf.2.2.1, hfl.2.2.1]
            · rw [hf.2.2.2.1, hfl.2.2.2.1]
          · rw [if_neg hhr]
            rcases hht : heading_try line with _ | n
            · simp only []
              obtain ⟨ch, hch⟩ := head?_pyLstrip_of_not_blank (by
                rcases hbb : isBlankL line with _ | _
                · rfl
                · exact absurd hbb hb)
              rw [hch]
              simp only []
              by_cases hq : ch = '>'
              · rw [if_pos hq]
                have hf := quoteStep_fields cfg st2 (c0 :: l0') line
                refine ⟨_, rfl, ?_, ?_, ?_, ?_, hf.2.2.2.2.2⟩
                · rw [hf.1, hfl.1]
                · rw [hf.2.1, hfl.2.1]
                · rw [hf.2.2.1, hfl.2.2.1]
                · rw [hf.2.2.2.1, hfl.2.2.2.1]
              · rw [if_neg hq]
                have hf := listOrParaStep_fields cfg st2 (c0 :: l0') line
                refine ⟨_, rfl, ?_, ?_, ?_, ?_, hf.2.2.2.2.2⟩
                · rw [hf.1, hfl.1]
                · rw [hf.2.1, hfl.2.1]
                · rw [hf.2.2.1, hfl.2.2.1]
                · rw [hf.2.2.2.1, hfl.2.2.2.1]
            · simp only []
              have hf := headingStep_fields cfg st2 (c0 :: l0') line n
              refine ⟨_, rfl, ?_, ?_, ?_, ?_, hf.2.2.2.2⟩
              · rw [hf.1, hfl.1]
              · rw [hf.2.1, hfl.2.1]
              · rw [hf.2.2.1, hfl.2.2.1]
              · rw [hf.2.2.2.1, hfl.2.2.2.1]
      · -- consumed as indented code content
        have hfl := indentedPhase_inr cfg st (c0 :: l0') line st2 hip
        exact ⟨st2, rfl, hfl.1, hfl.2.1, hfl.2.2.1, hfl.2.2.2.1, hfl.2.2.2.2.2⟩

theorem processLine_spec (cfg : Config) (st : St) (l : List Char)
    (h0 : l ≠ []) (hinv : st.inBody = true → st.previousLine.isSome = true) :
    ∃ st', processLine cfg st l = some st' ∧
      (st'.inBody = true → st'.previousLine.isSome = true) := by
  obtain ⟨c0, l0', rfl⟩ : ∃ c0 l0', l = c0 :: l0' := by
    cases l with
    | nil => exact absurd rfl h0
    | cons a b => exact ⟨a, b, rfl⟩
  unfold processLine
  simp only []
  generalize hst1 : (if (!st.firstLineChecked) = true then
      { st with firstLineChecked := true,
                frontmatterHandled := st.frontmatterHandled ||
                  !("---".data.isPrefixOf (pyRstrip (c0 :: l0'))) } else st) = st1
  have hst1b : st1.inBody = st.inBody ∧ st1.previousLine = st.previousLine := by
    rw [← hst1]; split <;> simp
  by_cases hh : (!st1.frontmatterHandled) = true
  · rw [if_pos hh]
    refine ⟨_, rfl, ?_⟩
    have hf := frontmatterStep_fields cfg st1 (c0 :: l0')
    intro hbody
    rw [hf.2.1, hst1b.1] at hbody
    rw [hf.2.2.1, hst1b.2]
    exact hinv hbody
  · rw [if_neg hh]
    by_cases hib : (!st1.inBody) = true
    · rw [if_pos hib]
      unfold preBody
      by_cases hb : isBlankL (c0 :: l0') = true
      · rw [if_pos hb]
        by_cases hpol : cfg.removeEmptyLines = Policy.removeAll ∨
            cfg.removeEmptyLines = Policy.trim
        · rw [if_pos hpol]
          simp only []
          exact ⟨_, rfl, fun _ => by simp⟩
        · rw [if_neg hpol]
          simp only []
          obtain ⟨st', h1, h2⟩ := bodyMain_spec cfg
            { st1 with previousLine := some (c0 :: l0'),
                       output := st1.output ++ ["-\n".data] } c0 l0' (by simp)
          exact ⟨st', h1, fun _ => by rw [h2.2.2.2.2]; rfl⟩
      · rw [if_neg hb]
        simp only []
        obtain ⟨st', h1, h2⟩ := bodyMain_spec cfg { st1 with inBody := true } c0 l0'
          (Or.inr (by
            rcases hbb : isBlankL (c0 :: l0') with _ | _
            · rfl
            · exact absurd hbb hb))
        exact ⟨st', h1, fun _ => by rw [h2.2.2.2.2]; rfl⟩
    · rw [if_neg hib]
      simp only []
      have hib' : st1.inBody = true := by
        rcases hbb : st1.inBody with _ | _
        · rw [hbb] at hib; simp at hib
        · rfl
      obtain ⟨st', h1, h2⟩ := bodyMain_spec cfg st1 c0 l0'
        (Or.inl (by rw [hst1b.2]; exact hinv (by rw [← hst1b.1]; exact hib')))
      exact ⟨st', h1, fun _ => by rw [h2.2.2.2.2]; rfl⟩

theorem processLines_total (cfg : Config) :
    ∀ (ls : List (List Char)) (st : St), (∀ l ∈ ls, l ≠ []) →
      (st.inBody = true → st.previousLine.isSome = true) →
      ∃ st', processLines cfg st ls = some st'
  | [], st, _, _ => ⟨st, rfl⟩
  | l :: ls, st, hne, hinv => by
    obtain ⟨st1, h1, hinv1⟩ := processLine_spec cfg st l (hne l (by simp)) hinv
    obtain ⟨st', h'⟩ := processLines_total cfg ls st1
      (fun x hx => hne x (by simp [hx])) hinv1
    exact ⟨st', by unfold processLines; rw [h1]; exact h'⟩

/-! ## C10 -/

/-- C10: the body loop never crashes on an index error: for every
configuration and every document whose lines are nonempty (as lines of
a Python text file always are), the whole conversion returns a result;
in particular the blockquote test `line.lstrip()[0]` is only reached
for lines with a non-whitespace character (whitespace-only lines are
consumed by the code-block and blank-line branches first). -/
theorem C10_no_index_error (cfg : Config) (lines : List (List Char))
    (hne : ∀ l ∈ lines, l ≠ []) :
    ∃ out, process_file cfg lines = some out := by
  obtain ⟨st', h⟩ := processLines_total cfg lines initSt hne (by intro h; cases h)
  exact ⟨st'.output, by unfold process_file; rw [h]; rfl⟩

/-- C10 witness. -/
theorem C10_no_index_error_witness :
    ∃ out, process_file cfgTrimTab ["# T\n".data, "\n".data, "> q\n".data] = some out := by
  exact C10_no_index_error cfgTrimTab ["# T\n".data, "\n".data, "> q\n".data]
    (by intro l hl; fin_cases hl <;> simp)

theorem preBody_inl (cfg : Config) (st : St) (l : List Char) (st' : St)
    (h : preBody cfg st l = .inl st') :
    st'.firstLineChecked = st.firstLineChecked ∧
    st'.inFrontmatter = st.inFrontmatter ∧
    st'.frontmatterHandled = st.frontmatterHandled := by
  unfold preBody at h
  simp only [] at h
  by_cases hb : isBlankL l = true
  · rw [if_pos hb] at h
    by_cases hpol : cfg.removeEmptyLines = Policy.removeAll ∨
        cfg.removeEmptyLines = Policy.trim
    · rw [if_pos hpol] at h
      exact absurd h (by simp)
    · rw [if_neg hpol] at h
      injection h with h
      subst h
      simp
  · rw [if_neg hb] at h
    injection h with h
    subst h
    simp

theorem preBody_inr (cfg : Config) (st : St) (l : List Char) (st' : St)
    (h : preBody cfg st l = .inr st') :
    st'.firstLineChecked = st.firstLineChecked ∧
    st'.inFrontmatter = st.inFrontmatter ∧
    st'.frontmatterHandled = st.frontmatterHandled := by
  unfold preBody at h
  simp only [] at h
  by_cases hb : isBlankL l = true
  · rw [if_pos hb] at h
    by_cases hpol : cfg.removeEmptyLines = Policy.removeAll ∨
        cfg.removeEmptyLines = Policy.trim
    · rw [if_pos hpol] at h
      injection h with h
      subst h
      simp
    · rw [if_neg hpol] at h
      exact absurd h (by simp)
  · rw [if_neg hb] at h
    exact absurd h (by simp)

theorem blankStep_flags (cfg : Config) (st : St) (l0 l : List Char) (st' : St)
    (h : blankStep cfg st l0 l = some st') :
    st'.firstLineChecked = st.firstLineChecked ∧
    st'.inFrontmatter = st.inFrontmatter ∧
    st'.frontmatterHandled = st.frontmatterHandled ∧
    st'.inBody = st.inBody := by
  unfold blankStep at h
  simp only [] at h
  generalize hst2 : (if st.contentStack.head? ≠ some Tag.heading then
      { st with indentLevel := 0, contentStack := [] } else st) = st2 at h
  have hfl2 : st2.firstLineChecked = st.firstLineChecked ∧
      st2.inFrontmatter = st.inFrontmatter ∧
      st2.frontmatterHandled = st.frontmatterHandled ∧
      st2.inBody = st.inBody := by
    rw [← hst2]
    split <;> simp
  rcases hpol : cfg.removeEmptyLines <;> rw [hpol] at h <;> simp only [] at h
  · injection h with h
    subst h
    simpa using hfl2
  · injection h with h
    subst h
    simpa using hfl2
  · by_cases h1 : st2.contentStack.head? = some Tag.heading
    · rw [if_pos h1] at h
      injection h with h
      subst h
      simpa using hfl2
    · rw [if_neg h1] at h
      rcases hq : st2.previousLine with _ | q <;> rw [hq] at h <;> simp only [] at h
      · cases h
      · by_cases h2 : isBlankL q = true <;> simp only [h2] at h <;>
          (injection h with h; subst h; simpa using hfl2)

theorem bodyMain_flags (cfg : Config) (st : St) (l0 : List Char) (st' : St)
    (h : bodyMain cfg st l0 = some st') :
    st'.firstLineChecked = st.firstLineChecked ∧
    st'.inFrontmatter = st.inFrontmatter ∧
    st'.frontmatterHandled = st.frontmatterHandled ∧
    st'.inBody = st.inBody := by
  unfold bodyMain at h
  rcases hc : l0.head? with _ | c0 <;> rw [hc] at h <;> simp only [] at h
  · cases h
  · generalize hline : (if c0 = '\t' then tabReplace l0 else l0) = line at h
    by_cases hfence : "\x60\x60\x60".data.isPrefixOf (pyLstrip line) = true
    · rw [if_pos hfence] at h
      injection h with h
      subst h
      have hf := fenceStep_fields cfg st l0 line
      exact ⟨hf.1, hf.2.1, hf.2.2.1, hf.2.2.2.1⟩
    · rw [if_neg hfence] at h
      by_cases hfc : st.contentStack.head? = some Tag.fenced_code_block
      · rw [if_pos hfc] at h
        injection h with h
        subst h
        have hf := fencedContentStep_fields cfg st l0 line
        exact ⟨hf.1, hf.2.1, hf.2.2.1, hf.2.2.2.1⟩
      · rw [if_neg hfc] at h
        rcases hip : indentedPhase cfg st l0 line with st2 | st2 <;>
          rw [hip] at h <;> simp only [] at h
        · have hfl := indentedPhase_inl cfg st l0 line st2 hip
          by_cases hb : isBlankL line = true
          · rw [if_pos hb] at h
            have hf := blankStep_flags cfg st2 l0 line st' h
            exact ⟨hf.1.trans hfl.1, hf.2.1.trans hfl.2.1,
              hf.2.2.1.trans hfl.2.2.1, hf.2.2.2.trans hfl.2.2.2.1⟩
          · rw [if_neg hb] at h
            by_cases hhr : pyStrip line = "---".data ∨ pyStrip line = "***".data
            · rw [if_pos hhr] at h
              injection h with h
              subst h
              have hf := hrStep_fields cfg st2 l0 line
              exact ⟨hf.1.trans hfl.1, hf.2.1.trans hfl.2.1,
                hf.2.2.1.trans hfl.2.2.1, hf.2.2.2.1.trans hfl.2.2.2.1⟩
            · rw [if_neg hhr] at h
              rcases hht : heading_try line with _ | n <;> rw [hht] at h <;>
                simp only [] at h
              · rcases hlh : (pyLstrip line).head? with _ | ch <;> rw [hlh] at h <;>
                  simp only [] at h
                · cases h
                · by_cases hq : ch = '>'
                  · rw [if_pos hq] at h
                    injection h with h
                    subst h
                    have hf := quoteStep_fields cfg st2 l0 line
                    exact ⟨hf.1.trans hfl.1, hf.2.1.trans hfl.2.1,
                      hf.2.2.1.trans hfl.2.2.1, hf.2.2.2.1.trans hfl.2.2.2.1⟩
                  · rw [if_neg hq] at h
                    injection h with h
                    subst h
                    have hf := listOrParaStep_fields cfg st2 l0 line
                    exact ⟨hf.1.trans hfl.1, hf.2.1.trans hfl.2.1,
                      hf.2.2.1.trans hfl.2.2.1, hf.2.2.2.1.trans hfl.2.2.2.1⟩
              · injection h with h
                subst h
                have hf := headingStep_fields cfg st2 l0 line n
                exact ⟨hf.1.trans hfl.1, hf.2.1.trans hfl.2.1,
                  hf.2.2.1.trans hfl.2.2.1, hf.2.2.2.1.trans hfl.2.2.2.1⟩
        · have hfl := indentedPhase_inr cfg st l0 line st2 hip
          injection h with h
          subst h
          exact ⟨hfl.1, hfl.2.1, hfl.2.2.1, hfl.2.2.2.1⟩

theorem processLine_flags (cfg : Config) (st : St) (l : List Char) (st' : St)
    (hfc : st.firstLineChecked = true) (hfm : st.frontmatterHandled = true)
    (h : processLine cfg st l = some st') :
    st'.frontmatterHandled = true ∧ st'.inFrontmatter = st.inFrontmatter := by
  unfold processLine at h
  rw [hfc] at h
  simp only [Bool.not_true, Bool.false_eq_true, if_false, ite_false, reduceIte] at h
  rw [hfm] at h
  simp only [Bool.not_true, Bool.false_eq_true, if_false, ite_false, reduceIte] at h
  by_cases hib : (!st.inBody) = true
  · rw [if_pos hib] at h
    rcases hpb : preBody cfg st l with st2 | st2 <;> rw [hpb] at h <;> simp only [] at h
    · have h2 := preBody_inl cfg st l st2 hpb
      have h3 := bodyMain_flags cfg st2 l st' h
      exact ⟨(h3.2.2.1.trans h2.2.2).trans hfm, h3.2.1.trans h2.2.1⟩
    · injection h with h
      subst h
      have h2 := preBody_inr cfg st l st2 hpb
      exact ⟨h2.2.2.trans hfm, h2.2.1⟩
  · rw [if_neg hib] at h
    simp only [] at h
    have h3 := bodyMain_flags cfg st l st' h
    exact ⟨h3.2.2.1.trans hfm, h3.2.1⟩

theorem processLine_init_delim (cfg : Config) (l : List Char)
    (hd : "---".data.isPrefixOf (pyRstrip l) = true) :
    processLine cfg initSt l =
      some (frontmatterStep cfg { initSt with firstLineChecked := true } l) := by
  unfold processLine
  simp [initSt, hd]

theorem processLine_init_nondelim (cfg : Config) (l : List Char)
    (hd : "---".data.isPrefixOf (pyRstrip l) = false) :
    processLine cfg initSt l =
      (match preBody cfg
          { initSt with firstLineChecked := true, frontmatterHandled := true } l with
       | .inr s => some s
       | .inl s => bodyMain cfg s l) := by
  unfold processLine
  simp [initSt, hd]

/-! ## C5 (amended) -/

/-- C5 (amended): a frontmatter region is opened if and only if the
first line of the document, right-stripped, STARTS WITH three dashes
(`rstrip().startswith('---')` — it need not be exactly a three-dash
delimiter line); it closes at the next line whose right-stripped text
starts with three dashes; if the first line does not start with three
dashes, no frontmatter region exists (the frontmatter flag is
immediately handled, stays handled, and every line proceeds to the
pre-body/body processing). -/
theorem C5_frontmatter_startswith (cfg : Config) (l : List Char) :
    ((∃ st', processLine cfg initSt l = some st' ∧ st'.inFrontmatter = true ∧
        st'.frontmatterHandled = false) ↔
      "---".data.isPrefixOf (pyRstrip l) = true) ∧
    (∀ st, st.firstLineChecked = true → st.frontmatterHandled = false →
        st.inFrontmatter = true →
      processLine cfg st l = some (frontmatterStep cfg st l) ∧
      ((frontmatterStep cfg st l).frontmatterHandled = true ↔
        "---".data.isPrefixOf (pyRstrip l) = true)) ∧
    ((¬ "---".data.isPrefixOf (pyRstrip l) = true) →
      ∀ st', processLine cfg initSt l = some st' →
        st'.frontmatterHandled = true ∧ st'.inFrontmatter = false) ∧
    (∀ st st', st.firstLineChecked = true → st.frontmatterHandled = true →
      processLine cfg st l = some st' →
      st'.frontmatterHandled = true ∧ st'.inFrontmatter = st.inFrontmatter) := by
  refine ⟨?_, ?_, ?_, ?_⟩
  · by_cases hd : "---".data.isPrefixOf (pyRstrip l) = true
    · simp only [hd, iff_true]
      rw [processLine_init_delim cfg l hd]
      refine ⟨_, rfl, ?_, ?_⟩
      · exact (frontmatterStep_delim_open cfg _ l hd rfl).1
      · rw [(frontmatterStep_delim_open cfg _ l hd rfl).2]
        rfl
    · have hd' : "---".data.isPrefixOf (pyRstrip l) = false := by
        rcases hb : "---".data.isPrefixOf (pyRstrip l) with _ | _
        · rfl
        · exact absurd hb hd
      rw [hd']
      simp only [Bool.false_eq_true, iff_false]
      rintro ⟨st', hst', _, hfm⟩
      rw [processLine_init_nondelim cfg l hd'] at hst'
      rcases hpb : preBody cfg
          { initSt with firstLineChecked := true, frontmatterHandled := true } l
        with st2 | st2 <;> rw [hpb] at hst' <;> simp only [] at hst'
      · have h3 := bodyMain_flags cfg st2 l st' hst'
        have h2 := preBody_inl cfg _ l st2 hpb
        rw [h3.2.2.1, h2.2.2] at hfm
        cases hfm
      · injection hst' with hst'
        subst hst'
        have h2 := preBody_inr cfg _ l st2 hpb
        rw [h2.2.2] at hfm
        cases hfm
  · intro st hflc hfm hin
    have hpl : processLine cfg st l = some (frontmatterStep cfg st l) := by
      unfold processLine
      simp [hflc, hfm]
    refine ⟨hpl, ?_⟩
    by_cases hd : "---".data.isPrefixOf (pyRstrip l) = true
    · simp only [hd, iff_true]
      exact (frontmatterStep_delim_close cfg st l hd hin).2
    · have hd' : "---".data.isPrefixOf (pyRstrip l) = false := by
        rcases hb : "---".data.isPrefixOf (pyRstrip l) with _ | _
        · rfl
        · exact absurd hb hd
      rw [hd']
      simp only [Bool.false_eq_true, iff_false]
      rw [(frontmatterStep_nondelim cfg st l hd).2, hfm]
      simp
  · intro hd st' hst'
    have hd' : "---".data.isPrefixOf (pyRstrip l) = false := by
      rcases hb : "---".data.isPrefixOf (pyRstrip l) with _ | _
      · rfl
      · exact absurd hb hd
    rw [processLine_init_nondelim cfg l hd'] at hst'
    rcases hpb : preBody cfg
        { initSt with firstLineChecked := true, frontmatterHandled := true } l
      with st2 | st2 <;> rw [hpb] at hst' <;> simp only [] at hst'
    · have h3 := bodyMain_flags cfg st2 l st' hst'
      have h2 := preBody_inl cfg _ l st2 hpb
      constructor
      · rw [h3.2.2.1, h2.2.2]
      · rw [h3.2.1, h2.2.1]
        rfl
    · injection hst' with hst'
      subst hst'
      have h2 := preBody_inr cfg _ l st2 hpb
      constructor
      · rw [h2.2.2]
      · rw [h2.2.1]
        rfl
  · intro st st' hflc hfm hst'
    exact processLine_flags cfg st l st' hflc hfm hst'

/-- C5 witness: the delimiter line `---` opens a frontmatter region, and
a plain first line leaves the document in body processing. -/
theorem C5_frontmatter_startswith_witness :
    (∃ st', processLine cfgTrimTab initSt "---\n".data = some st' ∧
      st'.inFrontmatter = true ∧ st'.frontmatterHandled = false) ∧
    (∀ st', processLine cfgTrimTab initSt "hello\n".data = some st' →
      st'.frontmatterHandled = true ∧ st'.inFrontmatter = false) := by
  refine ⟨(C5_frontmatter_startswith cfgTrimTab "---\n".data).1.mpr (by decide),
    (C5_frontmatter_startswith cfgTrimTab "hello\n".data).2.2.1 (by decide)⟩

/-! ## blankStep case equations (for C6) -/

theorem blankStep_keep_heading (cfg : Config) (st : St) (l0 l : List Char)
    (hpol : cfg.removeEmptyLines = Policy.keep)
    (hh : st.contentStack.head? = some Tag.heading) :
    blankStep cfg st l0 l = some { st with output := st.output ++ [nIndent cfg.indent st.headingLevel ++ "- ".data ++ l], previousLine := some l0 } := by
  unfold blankStep
  rw [hpol]
  simp [hh]

theorem blankStep_keep_nonheading (cfg : Config) (st : St) (l0 l : List Char)
    (hpol : cfg.removeEmptyLines = Policy.keep)
    (hh : st.contentStack.head? ≠ some Tag.heading) :
    blankStep cfg st l0 l = some { st with indentLevel := 0, contentStack := [], output := st.output ++ [nIndent cfg.indent st.headingLevel ++ "- ".data ++ l], previousLine := some l0 } := by
  unfold blankStep
  rw [hpol]
  simp [hh]

theorem blankStep_all_heading (cfg : Config) (st : St) (l0 l : List Char)
    (hpol : cfg.removeEmptyLines = Policy.removeAll)
    (hh : st.contentStack.head? = some Tag.heading) :
    blankStep cfg st l0 l = some { st with previousLine := some l0 } := by
  unfold blankStep
  rw [hpol]
  simp [hh]

theorem blankStep_all_nonheading (cfg : Config) (st : St) (l0 l : List Char)
    (hpol : cfg.removeEmptyLines = Policy.removeAll)
    (hh : st.contentStack.head? ≠ some Tag.heading) :
    blankStep cfg st l0 l = some { st with indentLevel := 0, contentStack := [], previousLine := some l0 } := by
  unfold blankStep
  rw [hpol]
  simp [hh]

theorem blankStep_trim_heading (cfg : Config) (st : St) (l0 l : List Char)
    (hpol : cfg.removeEmptyLines = Policy.trim)
    (hh : st.contentStack.head? = some Tag.heading) :
    blankStep cfg st l0 l = some { st with previousLine := some l0 } := by
  unfold blankStep
  rw [hpol]
  simp [hh]

theorem blankStep_trim_prevnonblank (cfg : Config) (st : St) (l0 l q : List Char)
    (hpol : cfg.removeEmptyLines = Policy.trim)
    (hh : st.contentStack.head? ≠ some Tag.heading)
    (hq : st.previousLine = some q) (hqb : isBlankL q = false) :
    blankStep cfg st l0 l = some { st with indentLevel := 0, contentStack := [], output := st.output ++ [nIndent cfg.indent st.headingLevel ++ "- ".data ++ l], previousLine := some l0 } := by
  unfold blankStep
  rw [hpol]
  simp [hh, hq, hqb]

theorem blankStep_trim_prevblank (cfg : Config) (st : St) (l0 l q : List Char)
    (hpol : cfg.removeEmptyLines = Policy.trim)
    (hh : st.contentStack.head? ≠ some Tag.heading)
    (hq : st.previousLine = some q) (hqb : isBlankL q = true) :
    blankStep cfg st l0 l = some { st with indentLevel := 0, contentStack := [], previousLine := some l0 } := by
  unfold blankStep
  rw [hpol]
  simp [hh, hq, hqb]

/-- A blank body line (no leading tab, fewer than four leading spaces,
not inside a code block) is handled by the blank-line branch. -/
theorem processLine_blank (cfg : Config) (st : St) (b : List Char)
    (hflc : st.firstLineChecked = true) (hfm : st.frontmatterHandled = true)
    (hib : st.inBody = true)
    (hf : st.contentStack.head? ≠ some Tag.fenced_code_block)
    (hi : st.contentStack.head? ≠ some Tag.indented_code_block)
    (hb : isBlankL b = true) (hne : b ≠ [])
    (ht : b.head? ≠ some '\t')
    (h4 : "    ".data.isPrefixOf b = false) :
    processLine cfg st b = blankStep cfg st b b := by
  obtain ⟨c0, b', rfl⟩ : ∃ c0 b', b = c0 :: b' := by
    cases b with
    | nil => exact absurd rfl hne
    | cons a bb => exact ⟨a, bb, rfl⟩
  have hc0 : ¬ c0 = '\t' := by
    intro h
    rw [List.head?_cons, h] at ht
    exact ht rfl
  unfold processLine
  rw [hflc]
  simp only [Bool.not_true, Bool.false_eq_true, if_false, reduceIte]
  rw [hfm]
  simp only [Bool.not_true, Bool.false_eq_true, if_false, reduceIte]
  rw [hib]
  simp only [Bool.not_true, Bool.false_eq_true, if_false, reduceIte]
  unfold bodyMain
  simp only [List.head?_cons]
  rw [if_neg hc0]
  have hl : pyLstrip (c0 :: b') = [] := pyLstrip_eq_nil_of_blank hb
  rw [hl]
  rw [show ("\x60\x60\x60".data.isPrefixOf ([] : List Char)) = false from rfl]
  simp only [Bool.false_eq_true, if_false, reduceIte]
  rw [if_neg hf]
  have hip : indentedPhase cfg st (c0 :: b') (c0 :: b') = .inl st := by
    unfold indentedPhase
    rw [h4]
    simp only [Bool.false_eq_true, if_false, reduceIte]
    rw [if_neg hi]
  rw [hip]
  simp only []
  rw [if_pos hb]


theorem processLines_cons (cfg : Config) (st : St) (l : List Char)
    (ls : List (List Char)) (st' : St) (h : processLine cfg st l = some st') :
    processLines cfg st (l :: ls) = processLines cfg st' ls := by
  have e : processLines cfg st (l :: ls) =
      match processLine cfg st l with
      | some st2 => processLines cfg st2 ls
      | none => none := rfl
  rw [e, h]

/-! ## C6 (amended) -/

/-- C6 (amended): for three consecutive blank body lines that are
actually handled by the blank-line rule — each whitespace-only, with no
leading tab and fewer than four leading spaces (otherwise the
indented-code rule fires instead, see the counterexample), outside any
code block — the remove-all policy emits zero output lines, the
keep-all policy exactly three placeholder bullets, and the trim policy
exactly one, or zero when the stack top is still the heading. -/
theorem C6_blank_policies (cfg : Config) (st : St) (b1 b2 b3 : List Char)
    (hflc : st.firstLineChecked = true) (hfm : st.frontmatterHandled = true)
    (hib : st.inBody = true)
    (hf : st.contentStack.head? ≠ some Tag.fenced_code_block)
    (hi : st.contentStack.head? ≠ some Tag.indented_code_block)
    (hb1 : isBlankL b1 = true ∧ b1 ≠ [] ∧ b1.head? ≠ some '\t' ∧
      "    ".data.isPrefixOf b1 = false)
    (hb2 : isBlankL b2 = true ∧ b2 ≠ [] ∧ b2.head? ≠ some '\t' ∧
      "    ".data.isPrefixOf b2 = false)
    (hb3 : isBlankL b3 = true ∧ b3 ≠ [] ∧ b3.head? ≠ some '\t' ∧
      "    ".data.isPrefixOf b3 = false) :
    (cfg.removeEmptyLines = Policy.removeAll →
      (processLines cfg st [b1, b2, b3]).map St.output = some st.output) ∧
    (cfg.removeEmptyLines = Policy.keep →
      (processLines cfg st [b1, b2, b3]).map St.output = some (st.output ++
        [nIndent cfg.indent st.headingLevel ++ "- ".data ++ b1,
         nIndent cfg.indent st.headingLevel ++ "- ".data ++ b2,
         nIndent cfg.indent st.headingLevel ++ "- ".data ++ b3])) ∧
    (cfg.removeEmptyLines = Policy.trim →
      st.contentStack.head? = some Tag.heading →
      (processLines cfg st [b1, b2, b3]).map St.output = some st.output) ∧
    (cfg.removeEmptyLines = Policy.trim →
      st.contentStack.head? ≠ some Tag.heading → prevNonblank st = true →
      (processLines cfg st [b1, b2, b3]).map St.output = some (st.output ++
        [nIndent cfg.indent st.headingLevel ++ "- ".data ++ b1])) := by
  refine ⟨?_, ?_, ?_, ?_⟩
  · -- remove-all
    intro hpol
    by_cases hh : st.contentStack.head? = some Tag.heading
    · have e1 := processLine_blank cfg st b1 hflc hfm hib hf hi
        hb1.1 hb1.2.1 hb1.2.2.1 hb1.2.2.2
      rw [blankStep_all_heading cfg st b1 b1 hpol hh] at e1
      have e2 := processLine_blank cfg { st with previousLine := some b1 } b2
        hflc hfm hib hf hi hb2.1 hb2.2.1 hb2.2.2.1 hb2.2.2.2
      rw [blankStep_all_heading cfg { st with previousLine := some b1 } b2 b2 hpol hh] at e2
      have e3 := processLine_blank cfg { st with previousLine := some b2 } b3
        hflc hfm hib hf hi hb3.1 hb3.2.1 hb3.2.2.1 hb3.2.2.2
      rw [blankStep_all_heading cfg { st with previousLine := some b2 } b3 b3 hpol hh] at e3
      rw [processLines_cons cfg st b1 _ _ e1, processLines_cons cfg _ b2 _ _ e2,
        processLines_cons cfg _ b3 _ _ e3]
      rfl
    · have e1 := processLine_blank cfg st b1 hflc hfm hib hf hi
        hb1.1 hb1.2.1 hb1.2.2.1 hb1.2.2.2
      rw [blankStep_all_nonheading cfg st b1 b1 hpol hh] at e1
      have e2 := processLine_blank cfg { st with indentLevel := 0, contentStack := [], previousLine := some b1 } b2
        hflc hfm hib (by simp) (by simp) hb2.1 hb2.2.1 hb2.2.2.1 hb2.2.2.2
      rw [blankStep_all_nonheading cfg { st with indentLevel := 0, contentStack := [], previousLine := some b1 } b2 b2 hpol (by simp)] at e2
      have e3 := processLine_blank cfg { st with indentLevel := 0, contentStack := [], previousLine := some b2 } b3
        hflc hfm hib (by simp) (by simp) hb3.1 hb3.2.1 hb3.2.2.1 hb3.2.2.2
      rw [blankStep_all_nonheading cfg { st with indentLevel := 0, contentStack := [], previousLine := some b2 } b3 b3 hpol (by simp)] at e3
      rw [processLines_cons cfg st b1 _ _ e1, processLines_cons cfg _ b2 _ _ e2,
        processLines_cons cfg _ b3 _ _ e3]
      rfl
  · -- keep-all
    intro hpol
    by_cases hh : st.contentStack.head? = some Tag.heading
    · have e1 := processLine_blank cfg st b1 hflc hfm hib hf hi
        hb1.1 hb1.2.1 hb1.2.2.1 hb1.2.2.2
      rw [blankStep_keep_heading cfg st b1 b1 hpol hh] at e1
      have e2 := processLine_blank cfg { st with output := st.output ++ [nIndent cfg.indent st.headingLevel ++ "- ".data ++ b1], previousLine := some b1 } b2
        hflc hfm hib hf hi hb2.1 hb2.2.1 hb2.2.2.1 hb2.2.2.2
      rw [blankStep_keep_heading cfg { st with output := st.output ++ [nIndent cfg.indent st.headingLevel ++ "- ".data ++ b1], previousLine := some b1 } b2 b2 hpol hh] at e2
      have e3 := processLine_blank cfg { st with output := (st.output ++ [nIndent cfg.indent st.headingLevel ++ "- ".data ++ b1]) ++ [nIndent cfg.indent st.headingLevel ++ "- ".data ++ b2], previousLine := some b2 } b3
        hflc hfm hib hf hi hb3.1 hb3.2.1 hb3.2.2.1 hb3.2.2.2
      rw [blankStep_keep_heading cfg { st with output := (st.output ++ [nIndent cfg.indent st.headingLevel ++ "- ".data ++ b1]) ++ [nIndent cfg.indent st.headingLevel ++ "- ".data ++ b2], previousLine := some b2 } b3 b3 hpol hh] at e3
      rw [processLines_cons cfg st b1 _ _ e1, processLines_cons cfg _ b2 _ _ e2,
        processLines_cons cfg _ b3 _ _ e3]
      simp [processLines]
    · have e1 := processLine_blank cfg st b1 hflc hfm hib hf hi
        hb1.1 hb1.2.1 hb1.2.2.1 hb1.2.2.2
      rw [blankStep_keep_nonheading cfg st b1 b1 hpol hh] at e1
      have e2 := processLine_blank cfg { st with indentLevel := 0, contentStack := [], output := st.output ++ [nIndent cfg.indent st.headingLevel ++ "- ".data ++ b1], previousLine := some b1 } b2
        hflc hfm hib (by simp) (by simp) hb2.1 hb2.2.1 hb2.2.2.1 hb2.2.2.2
      rw [blankStep_keep_nonheading cfg { st with indentLevel := 0, contentStack := [], output := st.output ++ [nIndent cfg.indent st.headingLevel ++ "- ".data ++ b1], previousLine := some b1 } b2 b2 hpol (by simp)] at e2
      have e3 := processLine_blank cfg { st with indentLevel := 0, contentStack := [], output := (st.output ++ [nIndent cfg.indent st.headingLevel ++ "- ".data ++ b1]) ++ [nIndent cfg.indent st.headingLevel ++ "- ".data ++ b2], previousLine := some b2 } b3
        hflc hfm hib (by simp) (by simp) hb3.1 hb3.2.1 hb3.2.2.1 hb3.2.2.2
      rw [blankStep_keep_nonheading cfg { st with indentLevel := 0, contentStack := [], output := (st.output ++ [nIndent cfg.indent st.headingLevel ++ "- ".data ++ b1]) ++ [nIndent cfg.indent st.headingLevel ++ "- ".data ++ b2], previousLine := some b2 } b3 b3 hpol (by simp)] at e3
      rw [processLines_cons cfg st b1 _ _ e1, processLines_cons cfg _ b2 _ _ e2,
        processLines_cons cfg _ b3 _ _ e3]
      simp [processLines]
  · -- trim, directly after a heading
    intro hpol hh
    have e1 := processLine_blank cfg st b1 hflc hfm hib hf hi
      hb1.1 hb1.2.1 hb1.2.2.1 hb1.2.2.2
    rw [blankStep_trim_heading cfg st b1 b1 hpol hh] at e1
    have e2 := processLine_blank cfg { st with previousLine := some b1 } b2
      hflc hfm hib hf hi hb2.1 hb2.2.1 hb2.2.2.1 hb2.2.2.2
    rw [blankStep_trim_heading cfg { st with previousLine := some b1 } b2 b2 hpol hh] at e2
    have e3 := processLine_blank cfg { st with previousLine := some b2 } b3
      hflc hfm hib hf hi hb3.1 hb3.2.1 hb3.2.2.1 hb3.2.2.2
    rw [blankStep_trim_heading cfg { st with previousLine := some b2 } b3 b3 hpol hh] at e3
    rw [processLines_cons cfg st b1 _ _ e1, processLines_cons cfg _ b2 _ _ e2,
      processLines_cons cfg _ b3 _ _ e3]
    rfl
  · -- trim, after a non-blank line, not under a heading
    intro hpol hh hprev
    obtain ⟨q, hq, hqb⟩ : ∃ q, st.previousLine = some q ∧ isBlankL q = false := by
      unfold prevNonblank at hprev
      rcases hql : st.previousLine with _ | q
      · rw [hql] at hprev
        simp at hprev
      · rw [hql] at hprev
        simp only [Bool.not_eq_true'] at hprev
        exact ⟨q, rfl, hprev⟩
    have e1 := processLine_blank cfg st b1 hflc hfm hib hf hi
      hb1.1 hb1.2.1 hb1.2.2.1 hb1.2.2.2
    rw [blankStep_trim_prevnonblank cfg st b1 b1 q hpol hh hq hqb] at e1
    have e2 := processLine_blank cfg { st with indentLevel := 0, contentStack := [], output := st.output ++ [nIndent cfg.indent st.headingLevel ++ "- ".data ++ b1], previousLine := some b1 } b2
      hflc hfm hib (by simp) (by simp) hb2.1 hb2.2.1 hb2.2.2.1 hb2.2.2.2
    rw [blankStep_trim_prevblank cfg { st with indentLevel := 0, contentStack := [], output := st.output ++ [nIndent cfg.indent st.headingLevel ++ "- ".data ++ b1], previousLine := some b1 } b2 b2 b1 hpol (by simp) rfl hb1.1] at e2
    have e3 := processLine_blank cfg { st with indentLevel := 0, contentStack := [], output := st.output ++ [nIndent cfg.indent st.headingLevel ++ "- ".data ++ b1], previousLine := some b2 } b3
      hflc hfm hib (by simp) (by simp) hb3.1 hb3.2.1 hb3.2.2.1 hb3.2.2.2
    rw [blankStep_trim_prevblank cfg { st with indentLevel := 0, contentStack := [], output := st.output ++ [nIndent cfg.indent st.headingLevel ++ "- ".data ++ b1], previousLine := some b2 } b3 b3 b2 hpol (by simp) rfl hb2.1] at e3
    rw [processLines_cons cfg st b1 _ _ e1, processLines_cons cfg _ b2 _ _ e2,
      processLines_cons cfg _ b3 _ _ e3]
    rfl

/-- C6 witness: concrete runs of the policies on `\n\n\n` from a
paragraph state. -/
theorem C6_blank_policies_witness :
    ((processLines cfgAllTab
        { initSt with firstLineChecked := true, frontmatterHandled := true, inBody := true, contentStack := [Tag.paragraph], previousLine := some "x\n".data, output := ["- x\n".data] }
        ["\n".data, "\n".data, "\n".data]).map St.output = some ["- x\n".data]) ∧
    ((processLines cfgTrimTab
        { initSt with firstLineChecked := true, frontmatterHandled := true, inBody := true, contentStack := [Tag.paragraph], previousLine := some "x\n".data, output := ["- x\n".data] }
        ["\n".data, "\n".data, "\n".data]).map St.output =
      some (["- x\n".data] ++ ["- \n".data])) := by
  constructor
  · exact (C6_blank_policies cfgAllTab _ "\n".data "\n".data "\n".data
      rfl rfl rfl (by simp) (by simp)
      (by refine ⟨by decide, by simp, by decide, by decide⟩)
      (by refine ⟨by decide, by simp, by decide, by decide⟩)
      (by refine ⟨by decide, by simp, by decide, by decide⟩)).1 rfl
  · exact (C6_blank_policies cfgTrimTab _ "\n".data "\n".data "\n".data
      rfl rfl rfl (by simp) (by simp)
      (by refine ⟨by decide, by simp, by decide, by decide⟩)
      (by refine ⟨by decide, by simp, by decide, by decide⟩)
      (by refine ⟨by decide, by simp, by decide, by decide⟩)).2.2.2 rfl (by simp) (by decide)

theorem processLines_append (cfg : Config) :
    ∀ (xs ys : List (List Char)) (st : St),
      processLines cfg st (xs ++ ys) =
        match processLines cfg st xs with
        | some st' => processLines cfg st' ys
        | none => none
  | [], ys, st => rfl
  | x :: xs, ys, st => by
    have e : processLines cfg st ((x :: xs) ++ ys) =
        match processLine cfg st x with
        | some st1 => processLines cfg st1 (xs ++ ys)
        | none => none := rfl
    have e2 : processLines cfg st (x :: xs) =
        match processLine cfg st x with
        | some st1 => processLines cfg st1 xs
        | none => none := rfl
    rw [e, e2]
    rcases hx : processLine cfg st x with _ | st1 <;> simp only []
    exact processLines_append cfg xs ys st1

/-- A line of at least four leading spaces while the stack top is the
indented code block is consumed as code content. -/
theorem processLine_indented_content (cfg : Config) (st : St) (l : List Char)
    (hflc : st.firstLineChecked = true) (hfm : st.frontmatterHandled = true)
    (hib : st.inBody = true)
    (hi : st.contentStack.head? = some Tag.indented_code_block)
    (h4 : "    ".data.isPrefixOf l = true)
    (hnf : "\x60\x60\x60".data.isPrefixOf (pyLstrip l) = false) :
    processLine cfg st l = some { st with output := st.output ++ [nIndent cfg.indent st.headingLevel ++ "  ".data ++ l.drop 4], previousLine := some l } := by
  obtain ⟨t, rfl⟩ : ∃ t, l = ' ' :: ' ' :: ' ' :: ' ' :: t := by
    obtain ⟨t, ht⟩ := (List.isPrefixOf_iff_prefix.mp h4)
    exact ⟨t, ht.symm⟩
  unfold processLine
  rw [hflc]
  simp only [Bool.not_true, Bool.false_eq_true, if_false, reduceIte]
  rw [hfm]
  simp only [Bool.not_true, Bool.false_eq_true, if_false, reduceIte]
  rw [hib]
  simp only [Bool.not_true, Bool.false_eq_true, if_false, reduceIte]
  unfold bodyMain
  simp only [List.head?_cons]
  rw [if_neg (by decide : ¬ (' ' = '\t'))]
  rw [hnf]
  simp only [Bool.false_eq_true, if_false, reduceIte]
  rw [if_neg (by rw [hi]; intro h; cases h)]
  have hip : indentedPhase cfg st (' ' :: ' ' :: ' ' :: ' ' :: t)
      (' ' :: ' ' :: ' ' :: ' ' :: t) = .inr { st with output := st.output ++ [nIndent cfg.indent st.headingLevel ++ "  ".data ++ (' ' :: ' ' :: ' ' :: ' ' :: t).drop 4], previousLine := some (' ' :: ' ' :: ' ' :: ' ' :: t) } := by
    unfold indentedPhase
    rw [if_pos (show ("    ".data.isPrefixOf
      (' ' :: ' ' :: ' ' :: ' ' :: t)) = true by simp [List.isPrefixOf])]
    have hop : indentedOpen cfg st = st := by
      unfold indentedOpen
      rw [if_neg (by rw [hi]; intro hcon; exact hcon.2 rfl)]
    rw [hop, if_pos hi]
  rw [hip]
  simp [hflc, hfm, hib]

/-- A non-fence line while the stack top is the fenced code block is
consumed verbatim as code content (tab-free lines). -/
theorem processLine_fenced_content (cfg : Config) (st : St) (l : List Char)
    (hflc : st.firstLineChecked = true) (hfm : st.frontmatterHandled = true)
    (hib : st.inBody = true)
    (hfc : st.contentStack.head? = some Tag.fenced_code_block)
    (hne : l ≠ []) (ht : l.head? ≠ some '\t')
    (hnf : "\x60\x60\x60".data.isPrefixOf (pyLstrip l) = false) :
    processLine cfg st l = some { st with output := st.output ++ [if st.contentStack.contains Tag.list then nIndent cfg.indent st.headingLevel ++ l else nIndent cfg.indent st.headingLevel ++ "  ".data ++ l], previousLine := some l } := by
  obtain ⟨c0, l', rfl⟩ : ∃ c0 l', l = c0 :: l' := by
    cases l with
    | nil => exact absurd rfl hne
    | cons a b => exact ⟨a, b, rfl⟩
  have hc0 : ¬ c0 = '\t' := by
    intro h
    rw [List.head?_cons, h] at ht
    exact ht rfl
  unfold processLine
  rw [hflc]
  simp only [Bool.not_true, Bool.false_eq_true, if_false, reduceIte]
  rw [hfm]
  simp only [Bool.not_true, Bool.false_eq_true, if_false, reduceIte]
  rw [hib]
  simp only [Bool.not_true, Bool.false_eq_true, if_false, reduceIte]
  unfold bodyMain
  simp only [List.head?_cons]
  rw [if_neg hc0]
  rw [hnf]
  simp only [Bool.false_eq_true, if_false, reduceIte]
  rw [if_pos hfc]
  unfold fencedContentStep
  simp [hflc, hfm, hib]

theorem processLines_indented_code (cfg : Config) :
    ∀ (ls : List (List Char)) (st : St),
      st.firstLineChecked = true → st.frontmatterHandled = true →
      st.inBody = true →
      st.contentStack.head? = some Tag.indented_code_block →
      (∀ l ∈ ls, "    ".data.isPrefixOf l = true ∧
        "\x60\x60\x60".data.isPrefixOf (pyLstrip l) = false) →
      ∃ st', processLines cfg st ls = some st' ∧
        st'.output = st.output ++ ls.map (fun l =>
          nIndent cfg.indent st.headingLevel ++ "  ".data ++ l.drop 4)
  | [], st, _, _, _, _, _ => ⟨st, rfl, by simp⟩
  | l :: ls, st, hflc, hfm, hib, hi, hcond => by
    have e := processLine_indented_content cfg st l hflc hfm hib hi
      (hcond l (by simp)).1 (hcond l (by simp)).2
    obtain ⟨st', h1, h2⟩ := processLines_indented_code cfg ls
      { st with output := st.output ++ [nIndent cfg.indent st.headingLevel ++ "  ".data ++ l.drop 4], previousLine := some l }
      hflc hfm hib hi (fun x hx => hcond x (by simp [hx]))
    refine ⟨st', ?_, ?_⟩
    · rw [processLines_cons cfg st l _ _ e]
      exact h1
    · rw [h2]
      simp

theorem processLines_fenced_code (cfg : Config) :
    ∀ (ls : List (List Char)) (st : St),
      st.firstLineChecked = true → st.frontmatterHandled = true →
      st.inBody = true →
      st.contentStack.head? = some Tag.fenced_code_block →
      (∀ l ∈ ls, l ≠ [] ∧ l.head? ≠ some '\t' ∧
        "\x60\x60\x60".data.isPrefixOf (pyLstrip l) = false) →
      ∃ st', processLines cfg st ls = some st' ∧
        st'.output = st.output ++ ls.map (fun l =>
          if st.contentStack.contains Tag.list then
            nIndent cfg.indent st.headingLevel ++ l
          else nIndent cfg.indent st.headingLevel ++ "  ".data ++ l)
  | [], st, _, _, _, _, _ => ⟨st, rfl, by simp⟩
  | l :: ls, st, hflc, hfm, hib, hfc, hcond => by
    have e := processLine_fenced_content cfg st l hflc hfm hib hfc
      (hcond l (by simp)).1 (hcond l (by simp)).2.1 (hcond l (by simp)).2.2
    obtain ⟨st', h1, h2⟩ := processLines_fenced_code cfg ls
      { st with output := st.output ++ [if st.contentStack.contains Tag.list then nIndent cfg.indent st.headingLevel ++ l else nIndent cfg.indent st.headingLevel ++ "  ".data ++ l], previousLine := some l }
      hflc hfm hib hfc (fun x hx => hcond x (by simp [hx]))
    refine ⟨st', ?_, ?_⟩
    · rw [processLines_cons cfg st l _ _ e]
      exact h1
    · rw [h2]
      simp

/-! ## C4 (amended) -/

/-- C4 (amended): at end of document NO synthetic closing fence is
appended: the output is flushed exactly as accumulated.  A document
that ends inside an indented code block keeps its trailing
four-space-indented lines as code content with no closing fence, and a
document that ends inside a fenced code block likewise has its
remaining (non-fence) lines emitted as code content with no added
fence. -/
theorem C4_eof_never_closed (cfg : Config) (pre ls : List (List Char)) (st : St)
    (hpre : processLines cfg initSt pre = some st)
    (hflc : st.firstLineChecked = true) (hfm : st.frontmatterHandled = true)
    (hib : st.inBody = true) :
    (st.contentStack.head? = some Tag.indented_code_block →
      (∀ l ∈ ls, "    ".data.isPrefixOf l = true ∧
        "\x60\x60\x60".data.isPrefixOf (pyLstrip l) = false) →
      process_file cfg (pre ++ ls) = some (st.output ++ ls.map (fun l =>
        nIndent cfg.indent st.headingLevel ++ "  ".data ++ l.drop 4))) ∧
    (st.contentStack.head? = some Tag.fenced_code_block →
      (∀ l ∈ ls, l ≠ [] ∧ l.head? ≠ some '\t' ∧
        "\x60\x60\x60".data.isPrefixOf (pyLstrip l) = false) →
      process_file cfg (pre ++ ls) = some (st.output ++ ls.map (fun l =>
        if st.contentStack.contains Tag.list then
          nIndent cfg.indent st.headingLevel ++ l
        else nIndent cfg.indent st.headingLevel ++ "  ".data ++ l))) := by
  constructor
  · intro hi hcond
    obtain ⟨st', h1, h2⟩ := processLines_indented_code cfg ls st hflc hfm hib hi hcond
    unfold process_file
    rw [processLines_append cfg pre ls initSt, hpre]
    simp only []
    rw [h1]
    simp [h2]
  · intro hfc hcond
    obtain ⟨st', h1, h2⟩ := processLines_fenced_code cfg ls st hflc hfm hib hfc hcond
    unfold process_file
    rw [processLines_append cfg pre ls initSt, hpre]
    simp only []
    rw [h1]
    simp [h2]

/-- C4 witness: concrete documents ending inside an indented and a
fenced code block; the trailing lines stay code content, no fence is
appended. -/
theorem C4_eof_never_closed_witness :
    process_file cfgTrimTab ["    x\n".data, "    y\n".data] =
      some ["- \x60\x60\x60\n".data, "  x\n".data, "  y\n".data] ∧
    process_file cfgTrimTab ["\x60\x60\x60\n".data, "code\n".data] =
      some ["- \x60\x60\x60\n".data, "  code\n".data] := by
  constructor
  · have h := (C4_eof_never_closed cfgTrimTab ["    x\n".data] ["    y\n".data]
      { initSt with firstLineChecked := true, frontmatterHandled := true, inBody := true, contentStack := [Tag.indented_code_block], previousLine := some "    x\n".data, output := ["- \x60\x60\x60\n".data, "  x\n".data] }
      (by decide) rfl rfl rfl).1 rfl
      (by intro x hx
          rw [List.mem_singleton] at hx
          subst hx
          exact ⟨by decide, by decide⟩)
    exact h.trans (by decide)
  · have h := (C4_eof_never_closed cfgTrimTab ["\x60\x60\x60\n".data] ["code\n".data]
      { initSt with firstLineChecked := true, frontmatterHandled := true, inBody := true, contentStack := [Tag.fenced_code_block], previousLine := some "\x60\x60\x60\n".data, output := ["- \x60\x60\x60\n".data] }
      (by decide) rfl rfl rfl).2 rfl
      (by intro x hx
          rw [List.mem_singleton] at hx
          subst hx
          exact ⟨by simp, by decide, by decide⟩)
    exact h.trans (by decide)

/-! ## C8 -/

/-- C8: whenever a fenced-code opening fence line, or a blockquote
line, is met while `list` is on the context stack, the line's own
indent level (in 4-space units, `get_indent_level`) is compared
against the current list indent level: an equal-or-deeper indent emits
the line as a continuation of the current list item (re-indented for
the heading depth only, no new bullet, `indentLevel` unchanged), while
a shallower indent sets `indentLevel` to the line's own indent level
and emits a new nested bullet `- ` at that shallower depth (the
blockquote output additionally passes through the link rewrite). -/
theorem C8_in_list_indent_rule (cfg : Config) (st : St) (c0 : Char) (l0' : List Char)
    (hnt : c0 ≠ '\t')
    (hl : st.contentStack.contains Tag.list = true)
    (hnf : st.contentStack.head? ≠ some Tag.fenced_code_block)
    (hnh : st.contentStack.head? ≠ some Tag.heading)
    (hni : st.contentStack.head? ≠ some Tag.indented_code_block) :
    ("\x60\x60\x60".data.isPrefixOf (pyLstrip (c0 :: l0')) = true →
      (get_indent_level (c0 :: l0') ≥ st.indentLevel →
        bodyMain cfg st (c0 :: l0') = some { st with contentStack := push_to_stack_no_repeat st.contentStack Tag.fenced_code_block, output := st.output ++ [nIndent cfg.indent st.headingLevel ++ (c0 :: l0')], previousLine := some (c0 :: l0') }) ∧
      (get_indent_level (c0 :: l0') < st.indentLevel →
        bodyMain cfg st (c0 :: l0') = some { st with indentLevel := get_indent_level (c0 :: l0'), contentStack := push_to_stack_no_repeat st.contentStack Tag.fenced_code_block, output := st.output ++ [nIndent cfg.indent st.headingLevel ++ nIndent cfg.indent (get_indent_level (c0 :: l0')) ++ "- ".data ++ pyLstrip (c0 :: l0')], previousLine := some (c0 :: l0') })) ∧
    ("\x60\x60\x60".data.isPrefixOf (pyLstrip (c0 :: l0')) = false →
     (pyLstrip (c0 :: l0')).head? = some '>' →
     pyStrip (c0 :: l0') ≠ "---".data →
     pyStrip (c0 :: l0') ≠ "***".data →
     heading_try (c0 :: l0') = none →
      (get_indent_level (c0 :: l0') ≥ st.indentLevel →
        bodyMain cfg st (c0 :: l0') = some { st with contentStack := push_to_stack_no_repeat st.contentStack Tag.blockquote, output := st.output ++ [convert_internal_links (nIndent cfg.indent st.headingLevel ++ (c0 :: l0'))], previousLine := some (c0 :: l0') }) ∧
      (get_indent_level (c0 :: l0') < st.indentLevel →
        bodyMain cfg st (c0 :: l0') = some { st with indentLevel := get_indent_level (c0 :: l0'), contentStack := push_to_stack_no_repeat st.contentStack Tag.blockquote, output := st.output ++ [convert_internal_links (nIndent cfg.indent st.headingLevel ++ nIndent cfg.indent (get_indent_level (c0 :: l0')) ++ "- ".data ++ pyLstrip (c0 :: l0'))], previousLine := some (c0 :: l0') })) := by
  have hline : (if c0 = '\t' then tabReplace (c0 :: l0') else (c0 :: l0')) = c0 :: l0' :=
    if_neg hnt
  constructor
  · intro hfence
    have hbody : bodyMain cfg st (c0 :: l0') =
        some (fenceStep cfg st (c0 :: l0') (c0 :: l0')) := by
      unfold bodyMain
      simp only [List.head?_cons]
      rw [hline, if_pos hfence]
    constructor
    · intro hge
      rw [hbody]
      simp only [fenceStep]
      rw [if_pos hnf, if_neg hnh, if_pos hl, if_pos hge]
    · intro hlt
      rw [hbody]
      simp only [fenceStep]
      rw [if_pos hnf, if_neg hnh, if_pos hl, if_neg (not_le.mpr hlt)]
  · intro hfence hq hhr1 hhr2 hht
    have hnb : isBlankL (c0 :: l0') = false := by
      rcases hb : isBlankL (c0 :: l0') with _ | _
      · rfl
      · rw [pyLstrip_eq_nil_of_blank hb] at hq
        cases hq
    have hnnil : st.contentStack ≠ [] := by
      intro hc
      rw [hc] at hl
      cases hl
    have hip : indentedPhase cfg st (c0 :: l0') (c0 :: l0') = .inl st := by
      unfold indentedPhase
      have hopen : indentedOpen cfg st = st := by
        unfold indentedOpen
        rw [if_neg ?hcon]
        case hcon =>
          intro hc
          rcases hc.1 with hnil | hhd
          · exact hnnil hnil
          · exact hnh hhd
      by_cases h4 : "    ".data.isPrefixOf (c0 :: l0') = true
      · rw [if_pos h4, hopen, if_neg hni]
      · rw [if_neg h4, if_neg hni]
    have hbody : bodyMain cfg st (c0 :: l0') =
        some (quoteStep cfg st (c0 :: l0') (c0 :: l0')) := by
      unfold bodyMain
      simp only [List.head?_cons]
      rw [hline, if_neg (by simp [hfence]), if_neg hnf, hip]
      simp only []
      rw [if_neg (by simp [hnb]), if_neg (by intro hor; exact hor.elim hhr1 hhr2), hht]
      simp only []
      rw [hq]
      simp only []
      rw [if_pos trivial]
    constructor
    · intro hge
      rw [hbody]
      simp only [quoteStep]
      rw [if_pos hl, if_pos hge]
    · intro hlt
      rw [hbody]
      simp only [quoteStep]
      rw [if_pos hl, if_neg (not_le.mpr hlt)]

theorem C8_in_list_indent_rule_witness :
    (bodyMain cfgTrimTab { initSt with firstLineChecked := true, frontmatterHandled := true, inBody := true, headingLevel := 1, indentLevel := 1, contentStack := [Tag.list] } (' ' :: "   \x60\x60\x60\n".data)).map St.output = some ["\t    \x60\x60\x60\n".data] ∧
    (bodyMain cfgTrimTab { initSt with firstLineChecked := true, frontmatterHandled := true, inBody := true, headingLevel := 1, indentLevel := 1, contentStack := [Tag.list] } ('>' :: " q\n".data)).map St.output = some ["\t- > q\n".data] := by
  constructor
  · rw [((C8_in_list_indent_rule cfgTrimTab { initSt with firstLineChecked := true, frontmatterHandled := true, inBody := true, headingLevel := 1, indentLevel := 1, contentStack := [Tag.list] } ' ' "   \x60\x60\x60\n".data (by decide) (by decide) (by decide) (by decide) (by decide)).1 (by decide)).1 (by decide)]
    decide
  · rw [((C8_in_list_indent_rule cfgTrimTab { initSt with firstLineChecked := true, frontmatterHandled := true, inBody := true, headingLevel := 1, indentLevel := 1, contentStack := [Tag.list] } '>' " q\n".data (by decide) (by decide) (by decide) (by decide) (by decide)).2 (by decide) (by decide) (by decide) (by decide) (by decide)).2 (by decide)]
    decide

/-! ## C2: helper lemmas about the scanners on clean tokens -/

theorem splitCodeGo_no_tick (l : List Char) (h : ∀ c ∈ l, c ≠ btick) :
    ∀ n, splitCodeGo l n = (l, []) := by
  induction l with
  | nil => intro n; cases n <;> rfl
  | cons c cs ih =>
    intro n
    cases n with
    | zero => rfl
    | succ m =>
      have hc : ¬(c = btick) := h c (List.mem_cons_self c cs)
      simp only [splitCodeGo]
      rw [if_neg hc, ih (fun x hx => h x (List.mem_cons_of_mem c hx)) m]

theorem findClose2_append (l rest : List Char)
    (h : ∀ c ∈ l, c ≠ '\n' ∧ c ≠ ']') :
    findClose2 (l ++ ']' :: ']' :: rest) = some (l, rest) := by
  induction l with
  | nil => rfl
  | cons c cs ih =>
    have hc := h c (List.mem_cons_self c cs)
    show findClose2 (c :: (cs ++ ']' :: ']' :: rest)) = some (c :: cs, rest)
    unfold findClose2
    split
    · rename_i heq
      rw [List.cons_eq_cons] at heq
      exact absurd heq.1 hc.2
    · rename_i c' cs' heq
      rw [List.cons_eq_cons] at heq
      obtain ⟨rfl, rfl⟩ := heq
      rw [if_neg hc.1, ih (fun x hx => h x (List.mem_cons_of_mem c hx))]
      rfl
    · rename_i heq
      cases heq

theorem findClose_append (c : Char) (cs rest : List Char)
    (h : ∀ x ∈ c :: cs, x ≠ '\n' ∧ x ≠ ']') :
    findClose ((c :: cs) ++ ']' :: ']' :: rest) = some (c :: cs, rest) := by
  show findClose (c :: (cs ++ ']' :: ']' :: rest)) = some (c :: cs, rest)
  unfold findClose
  simp only []
  rw [if_neg (h c (List.mem_cons_self c cs)).1,
      findClose2_append cs rest (fun x hx => h x (List.mem_cons_of_mem c hx))]
  rfl

theorem findLastClose_step (c : Char) (cs : List Char) :
    findLastClose (c :: cs) =
      if c = '\n' then none
      else
        match findLastClose cs with
        | some p => some (c :: p.1, p.2)
        | none =>
          match c, cs with
          | ']', ']' :: r => some r |>.map fun rr => ([], rr)
          | _, _ => none := rfl

theorem findLastClose_append (l : List Char)
    (h : ∀ c ∈ l, c ≠ '\n' ∧ c ≠ ']') :
    findLastClose (l ++ [']', ']']) = some (l, []) := by
  induction l with
  | nil => rfl
  | cons c cs ih =>
    have hc := h c (List.mem_cons_self c cs)
    show findLastClose (c :: (cs ++ [']', ']'])) = some (c :: cs, [])
    rw [findLastClose_step, if_neg hc.1, ih (fun x hx => h x (List.mem_cons_of_mem c hx))]

theorem tryAnchorClose_none (c : Char) (r : List Char)
    (h1 : c ≠ '#') (h2 : c ≠ ']') :
    tryAnchorClose (c :: r) = none := by
  unfold tryAnchorClose
  split
  · rename_i heq
    rw [List.cons_eq_cons] at heq
    exact absurd heq.1 h1
  · rename_i heq
    rw [List.cons_eq_cons] at heq
    exact absurd heq.1 h2
  · rfl

theorem matchAnchorTail_plain (inner rest : List Char) (hne : inner ≠ [])
    (h : ∀ c ∈ inner, c ≠ '\n' ∧ c ≠ ']' ∧ c ≠ '#') :
    matchAnchorTail (inner ++ ']' :: ']' :: rest) = some (inner, rest) := by
  induction inner with
  | nil => exact absurd rfl hne
  | cons c cs ih =>
    have hc := h c (List.mem_cons_self c cs)
    show matchAnchorTail (c :: (cs ++ ']' :: ']' :: rest)) = some (c :: cs, rest)
    unfold matchAnchorTail
    rw [if_neg hc.1]
    cases cs with
    | nil =>
      show (match tryAnchorClose (']' :: ']' :: rest) with
            | some r => some ([c], r)
            | none => (matchAnchorTail (']' :: ']' :: rest)).map
                fun p => (c :: p.1, p.2)) = some ([c], rest)
      rfl
    | cons d ds =>
      have hd := h d (List.mem_cons_of_mem c (List.mem_cons_self d ds))
      rw [show (d :: ds) ++ ']' :: ']' :: rest = d :: (ds ++ ']' :: ']' :: rest)
            from rfl,
          tryAnchorClose_none d _ hd.2.2 hd.2.1]
      rw [show d :: (ds ++ ']' :: ']' :: rest) = (d :: ds) ++ ']' :: ']' :: rest
            from rfl,
          ih (by intro hcon; cases hcon)
             (fun x hx => h x (List.mem_cons_of_mem c hx))]
      rfl

theorem matchAnchorTail_anchor (inner anch : List Char) (hne : inner ≠ [])
    (h : ∀ c ∈ inner, c ≠ '\n' ∧ c ≠ ']' ∧ c ≠ '#')
    (ha : ∀ c ∈ anch, c ≠ '\n' ∧ c ≠ ']') :
    matchAnchorTail (inner ++ '#' :: anch ++ [']', ']']) = some (inner, []) := by
  induction inner with
  | nil => exact absurd rfl hne
  | cons c cs ih =>
    have hc := h c (List.mem_cons_self c cs)
    show matchAnchorTail (c :: (cs ++ '#' :: anch ++ [']', ']'])) =
      some (c :: cs, [])
    unfold matchAnchorTail
    rw [if_neg hc.1]
    cases cs with
    | nil =>
      show (match tryAnchorClose ('#' :: anch ++ [']', ']']) with
            | some r => some ([c], r)
            | none => (matchAnchorTail ('#' :: anch ++ [']', ']'])).map
                fun p => (c :: p.1, p.2)) = some ([c], [])
      have : tryAnchorClose ('#' :: anch ++ [']', ']']) = some [] := by
        show (findLastClose (anch ++ [']', ']'])).map (·.2) = some []
        rw [findLastClose_append anch ha]
        rfl
      rw [this]
    | cons d ds =>
      have hd := h d (List.mem_cons_of_mem c (List.mem_cons_self d ds))
      rw [show (d :: ds) ++ '#' :: anch ++ [']', ']'] =
            d :: (ds ++ '#' :: anch ++ [']', ']']) from rfl,
          tryAnchorClose_none d _ hd.2.2 hd.2.1]
      rw [show d :: (ds ++ '#' :: anch ++ [']', ']']) =
            (d :: ds) ++ '#' :: anch ++ [']', ']'] from rfl,
          ih (by intro hcon; cases hcon)
             (fun x hx => h x (List.mem_cons_of_mem c hx))]
      rfl

theorem wikiSplitGo_nil (n : Nat) : wikiSplitGo [] n = ([], []) := by
  cases n <;> rfl

theorem linkSubGo_nil (n : Nat) : linkSubGo [] n = [] := by
  cases n <;> rfl

theorem wikiSplitGo_token (mid : List Char) (n : Nat) (hne : mid ≠ [])
    (h : ∀ c ∈ mid, c ≠ '\n' ∧ c ≠ ']') :
    wikiSplitGo ('[' :: '[' :: (mid ++ [']', ']'])) (n + 1) =
      ([], [('[' :: '[' :: (mid ++ [']', ']']), [])]) := by
  obtain ⟨c, cs, rfl⟩ := List.exists_cons_of_ne_nil hne
  simp only [wikiSplitGo]
  rw [show (c :: cs) ++ [']', ']'] = (c :: cs) ++ ']' :: ']' :: ([] : List Char)
        from rfl,
      findClose_append c cs [] h]
  simp only []
  rw [wikiSplitGo_nil n]

theorem linkSubGo_cons (cs : List Char) (n : Nat) (g rest : List Char)
    (hm : matchAnchorTail cs = some (g, rest)) :
    linkSubGo ('[' :: '[' :: cs) (n + 1) =
      '[' :: '[' :: (g ++ ']' :: ']' :: linkSubGo rest n) := by
  simp only [linkSubGo, hm]

theorem dotSlash_cases (c : Char) : dotSlash c = c ∨ dotSlash c = '/' := by
  unfold dotSlash
  split
  · exact Or.inr rfl
  · exact Or.inl rfl

/-- C2 (amended): for a wiki link token standing alone outside inline
code, the rewrite keeps the whole inner text up to the `#` (including
any alias segment, which is NOT discarded) with every `.` replaced by
`/`, and discards the `#`-anchor suffix: `[[inner]]` becomes
`[[inner./→/]]` and `[[inner#anchor]]` becomes `[[inner./→/]]`. -/
theorem C2_link_rewrite (inner anch : List Char)
    (hne : inner ≠ [])
    (hin : ∀ c ∈ inner, c ≠ '\n' ∧ c ≠ ']' ∧ c ≠ '#' ∧ c ≠ btick)
    (han : ∀ c ∈ anch, c ≠ '\n' ∧ c ≠ ']' ∧ c ≠ btick) :
    convert_internal_links ('[' :: '[' :: (inner ++ [']', ']'])) =
      '[' :: '[' :: (inner.map dotSlash ++ [']', ']']) ∧
    convert_internal_links ('[' :: '[' :: (inner ++ '#' :: anch ++ [']', ']'])) =
      '[' :: '[' :: (inner.map dotSlash ++ [']', ']']) := by
  have hmapprops : ∀ c ∈ inner.map dotSlash, c ≠ '\n' ∧ c ≠ ']' ∧ c ≠ '#' := by
    intro x hx
    obtain ⟨c, hc, rfl⟩ := List.mem_map.mp hx
    rcases dotSlash_cases c with hd | hd <;> rw [hd]
    · exact ⟨(hin c hc).1, (hin c hc).2.1, (hin c hc).2.2.1⟩
    · exact ⟨by decide, by decide, by decide⟩
  have hmapne : inner.map dotSlash ≠ [] := by
    intro hcon
    exact hne (List.map_eq_nil_iff.mp hcon)
  constructor
  · have hnt1 : ∀ c ∈ ('[' :: '[' :: (inner ++ [']', ']'])), c ≠ btick := by
      intro x hx
      rcases List.mem_cons.mp hx with rfl | hx
      · decide
      rcases List.mem_cons.mp hx with rfl | hx
      · decide
      rcases List.mem_append.mp hx with hx | hx
      · exact (hin x hx).2.2.2
      · simp only [List.mem_cons, List.mem_singleton] at hx
        rcases hx with rfl | rfl | hx
        · decide
        · decide
        · cases hx
    have hsc1 : split_code ('[' :: '[' :: (inner ++ [']', ']'])) =
        ('[' :: '[' :: (inner ++ [']', ']']), []) := by
      unfold split_code
      exact splitCodeGo_no_tick _ hnt1 _
    have h1 : convert_internal_links ('[' :: '[' :: (inner ++ [']', ']'])) =
        linkPiece ('[' :: '[' :: (inner ++ [']', ']'])) := by
      simp only [convert_internal_links]
      rw [hsc1]
      simp [recombine_splits_separators]
    have h2 : wiki_split ('[' :: '[' :: (inner ++ [']', ']'])) =
        ([], [('[' :: '[' :: (inner ++ [']', ']']), [])]) := by
      unfold wiki_split
      rw [show ('[' :: '[' :: (inner ++ [']', ']'])).length =
            (inner ++ [']', ']']).length + 1 + 1 from by simp]
      exact wikiSplitGo_token inner _ hne
        (fun c hc => ⟨(hin c hc).1, (hin c hc).2.1⟩)
    have h3 : linkPiece ('[' :: '[' :: (inner ++ [']', ']'])) =
        link_sub (('[' :: '[' :: (inner ++ [']', ']'])).map dotSlash) := by
      simp only [linkPiece]
      rw [h2]
      simp [recombine_splits_separators]
    have h4 : ('[' :: '[' :: (inner ++ [']', ']'])).map dotSlash =
        '[' :: '[' :: (inner.map dotSlash ++ [']', ']']) := by
      simp [dotSlash]
    have hmt : matchAnchorTail (inner.map dotSlash ++ ']' :: ']' :: ([] : List Char)) =
        some (inner.map dotSlash, []) :=
      matchAnchorTail_plain _ _ hmapne hmapprops
    have h5 : link_sub ('[' :: '[' :: (inner.map dotSlash ++ [']', ']'])) =
        '[' :: '[' :: (inner.map dotSlash ++ [']', ']']) := by
      unfold link_sub
      rw [show ('[' :: '[' :: (inner.map dotSlash ++ [']', ']'])).length =
            (inner.map dotSlash ++ [']', ']']).length + 1 + 1 from by simp]
      rw [linkSubGo_cons _ _ _ _ hmt, linkSubGo_nil]
    calc convert_internal_links ('[' :: '[' :: (inner ++ [']', ']']))
        = linkPiece ('[' :: '[' :: (inner ++ [']', ']'])) := h1
      _ = link_sub (('[' :: '[' :: (inner ++ [']', ']'])).map dotSlash) := h3
      _ = link_sub ('[' :: '[' :: (inner.map dotSlash ++ [']', ']'])) := by rw [h4]
      _ = '[' :: '[' :: (inner.map dotSlash ++ [']', ']']) := h5
  · rw [show inner ++ '#' :: anch ++ [']', ']'] =
        (inner ++ '#' :: anch) ++ [']', ']'] from by simp]
    have hmid : ∀ c ∈ inner ++ '#' :: anch, c ≠ '\n' ∧ c ≠ ']' := by
      intro x hx
      rcases List.mem_append.mp hx with hx | hx
      · exact ⟨(hin x hx).1, (hin x hx).2.1⟩
      · rcases List.mem_cons.mp hx with rfl | hx
        · exact ⟨by decide, by decide⟩
        · exact ⟨(han x hx).1, (han x hx).2.1⟩
    have hmidne : inner ++ '#' :: anch ≠ [] := by
      intro hcon
      exact hne (List.append_eq_nil.mp hcon).1
    have hnt2 : ∀ c ∈ ('[' :: '[' :: ((inner ++ '#' :: anch) ++ [']', ']'])), c ≠ btick := by
      intro x hx
      rcases List.mem_cons.mp hx with rfl | hx
      · decide
      rcases List.mem_cons.mp hx with rfl | hx
      · decide
      rcases List.mem_append.mp hx with hx | hx
      · rcases List.mem_append.mp hx with hx | hx
        · exact (hin x hx).2.2.2
        · rcases List.mem_cons.mp hx with rfl | hx
          · decide
          · exact (han x hx).2.2
      · simp only [List.mem_cons, List.mem_singleton] at hx
        rcases hx with rfl | rfl | hx
        · decide
        · decide
        · cases hx
    have hsc2 : split_code ('[' :: '[' :: ((inner ++ '#' :: anch) ++ [']', ']'])) =
        ('[' :: '[' :: ((inner ++ '#' :: anch) ++ [']', ']']), []) := by
      unfold split_code
      exact splitCodeGo_no_tick _ hnt2 _
    have h1 : convert_internal_links ('[' :: '[' :: ((inner ++ '#' :: anch) ++ [']', ']'])) =
        linkPiece ('[' :: '[' :: ((inner ++ '#' :: anch) ++ [']', ']'])) := by
      simp only [convert_internal_links]
      rw [hsc2]
      simp [recombine_splits_separators]
    have h2 : wiki_split ('[' :: '[' :: ((inner ++ '#' :: anch) ++ [']', ']'])) =
        ([], [('[' :: '[' :: ((inner ++ '#' :: anch) ++ [']', ']']), [])]) := by
      unfold wiki_split
      rw [show ('[' :: '[' :: ((inner ++ '#' :: anch) ++ [']', ']'])).length =
            ((inner ++ '#' :: anch) ++ [']', ']']).length + 1 + 1 from by simp]
      exact wikiSplitGo_token (inner ++ '#' :: anch) _ hmidne hmid
    have h3 : linkPiece ('[' :: '[' :: ((inner ++ '#' :: anch) ++ [']', ']'])) =
        link_sub (('[' :: '[' :: ((inner ++ '#' :: anch) ++ [']', ']'])).map dotSlash) := by
      simp only [linkPiece]
      rw [h2]
      simp [recombine_splits_separators]
    have h4 : ('[' :: '[' :: ((inner ++ '#' :: anch) ++ [']', ']'])).map dotSlash =
        '[' :: '[' :: (inner.map dotSlash ++ '#' :: anch.map dotSlash ++ [']', ']']) := by
      simp [dotSlash]
    have hanchm : ∀ c ∈ anch.map dotSlash, c ≠ '\n' ∧ c ≠ ']' := by
      intro x hx
      obtain ⟨c, hc, rfl⟩ := List.mem_map.mp hx
      rcases dotSlash_cases c with hd | hd <;> rw [hd]
      · exact ⟨(han c hc).1, (han c hc).2.1⟩
      · exact ⟨by decide, by decide⟩
    have hmt2 : matchAnchorTail (inner.map dotSlash ++ '#' :: anch.map dotSlash ++ [']', ']']) =
        some (inner.map dotSlash, []) :=
      matchAnchorTail_anchor _ _ hmapne hmapprops hanchm
    have h5 : link_sub ('[' :: '[' :: (inner.map dotSlash ++ '#' :: anch.map dotSlash ++ [']', ']'])) =
        '[' :: '[' :: (inner.map dotSlash ++ [']', ']']) := by
      unfold link_sub
      rw [show ('[' :: '[' :: (inner.map dotSlash ++ '#' :: anch.map dotSlash ++ [']', ']'])).length =
            (inner.map dotSlash ++ '#' :: anch.map dotSlash ++ [']', ']']).length + 1 + 1
            from by simp]
      rw [linkSubGo_cons _ _ _ _ hmt2, linkSubGo_nil]
    calc convert_internal_links ('[' :: '[' :: ((inner ++ '#' :: anch) ++ [']', ']']))
        = linkPiece ('[' :: '[' :: ((inner ++ '#' :: anch) ++ [']', ']'])) := h1
      _ = link_sub (('[' :: '[' :: ((inner ++ '#' :: anch) ++ [']', ']'])).map dotSlash) := h3
      _ = link_sub ('[' :: '[' :: (inner.map dotSlash ++ '#' :: anch.map dotSlash ++ [']', ']'])) := by
          rw [h4]
      _ = '[' :: '[' :: (inner.map dotSlash ++ [']', ']']) := h5

theorem C2_link_rewrite_witness :
    convert_internal_links ('[' :: '[' :: ("a.b.note".data ++ [']', ']'])) =
      "[[a/b/note]]".data ∧
    convert_internal_links ('[' :: '[' :: ("note".data ++ '#' :: "^ref".data ++ [']', ']'])) =
      "[[note]]".data := by
  constructor
  · exact ((C2_link_rewrite "a.b.note".data [] (by decide) (by decide) (by decide)).1).trans
      (by decide)
  · exact ((C2_link_rewrite "note".data "^ref".data (by decide) (by decide) (by decide)).2).trans
      (by decide)

/-! ## C3: code-span preservation of the embed/link rewrites -/

theorem closeTick_eq : ∀ (l mid rest : List Char), closeTick l = some (mid, rest) →
    l = mid ++ btick :: rest ∧ ∀ c ∈ mid, c ≠ '\n' ∧ c ≠ btick := by
  intro l
  induction l with
  | nil => intro mid rest h; cases h
  | cons c cs ih =>
    intro mid rest h
    unfold closeTick at h
    by_cases h1 : c = '\n'
    · rw [if_pos h1] at h; cases h
    · rw [if_neg h1] at h
      by_cases h2 : c = btick
      · rw [if_pos h2] at h
        injection h with h
        rw [Prod.mk.injEq] at h
        obtain ⟨h3, h4⟩ := h
        subst h3
        subst h4
        exact ⟨by rw [h2]; rfl, by intro x hx; cases hx⟩
      · rw [if_neg h2] at h
        rcases hct : closeTick cs with _ | ⟨m', r'⟩ <;> rw [hct] at h
        · cases h
        · have h' : (some (c :: m', r') : Option (List Char × List Char)) =
            some (mid, rest) := h
          injection h' with h'
          rw [Prod.mk.injEq] at h'
          obtain ⟨h3, h4⟩ := h'
          obtain ⟨he, hm⟩ := ih m' r' hct
          constructor
          · rw [← h3, ← h4]
            simp [he]
          · intro x hx
            rw [← h3] at hx
            rcases List.mem_cons.mp hx with rfl | hx
            · exact ⟨h1, h2⟩
            · exact hm x hx

theorem closeTick_build (mid rest : List Char)
    (h : ∀ c ∈ mid, c ≠ '\n' ∧ c ≠ btick) :
    closeTick (mid ++ btick :: rest) = some (mid, rest) := by
  induction mid with
  | nil =>
    show closeTick (btick :: rest) = some ([], rest)
    unfold closeTick
    rw [if_neg (by decide), if_pos rfl]
  | cons c cs ih =>
    have hc := h c (List.mem_cons_self c cs)
    show closeTick (c :: (cs ++ btick :: rest)) = some (c :: cs, rest)
    unfold closeTick
    rw [if_neg hc.1, if_neg hc.2, ih (fun x hx => h x (List.mem_cons_of_mem c hx))]
    rfl

theorem splitCodeGo_sep_shape (l : List Char) (n : Nat) :
    ∀ sp ∈ (splitCodeGo l n).2,
      (∃ mid, sp.1 = btick :: mid ++ [btick] ∧ ∀ c ∈ mid, c ≠ '\n' ∧ c ≠ btick) := by
  induction l, n using splitCodeGo.induct with
  | case1 l => intro sp hsp; simp [splitCodeGo] at hsp
  | case2 t ht => intro sp hsp; cases t <;> simp [splitCodeGo] at hsp
  | case3 cs n mid rest hct ih =>
    intro sp hsp
    rw [show splitCodeGo (btick :: cs) (n + 1) =
        ([], (btick :: (mid ++ [btick]), (splitCodeGo rest n).1) ::
          (splitCodeGo rest n).2) from by simp [splitCodeGo, hct]] at hsp
    rcases List.mem_cons.mp hsp with rfl | hsp
    · exact ⟨mid, rfl, (closeTick_eq cs mid rest hct).2⟩
    · exact ih sp hsp
  | case4 cs n hct ih =>
    intro sp hsp
    rw [show splitCodeGo (btick :: cs) (n + 1) =
        (btick :: (splitCodeGo cs n).1, (splitCodeGo cs n).2)
        from by simp [splitCodeGo, hct]] at hsp
    exact ih sp hsp
  | case5 c cs n hbt ih =>
    intro sp hsp
    rw [show splitCodeGo (c :: cs) (n + 1) =
        (c :: (splitCodeGo cs n).1, (splitCodeGo cs n).2)
        from by simp [splitCodeGo, if_neg hbt]] at hsp
    exact ih sp hsp

theorem splitCodeGo_build : ∀ (n : Nat) (p : List Char)
    (sps : List (List Char × List Char)),
    (∀ c ∈ p, c ≠ btick) →
    (∀ sp ∈ sps,
      (∃ mid, sp.1 = btick :: mid ++ [btick] ∧ ∀ c ∈ mid, c ≠ '\n' ∧ c ≠ btick) ∧
      (∀ c ∈ sp.2, c ≠ btick)) →
    (p ++ (sps.map fun sp => sp.1 ++ sp.2).flatten).length ≤ n →
    splitCodeGo (p ++ (sps.map fun sp => sp.1 ++ sp.2).flatten) n = (p, sps) := by
  intro n
  induction n using Nat.strong_induction_on with
  | _ n ih =>
    intro p sps hp hs hn
    cases sps with
    | nil =>
      simp only [List.map_nil, List.flatten_nil, List.append_nil]
      exact splitCodeGo_no_tick p hp n
    | cons sp tl =>
      obtain ⟨s, q⟩ := sp
      obtain ⟨⟨mid, hshape, hmid⟩, hq⟩ := hs (s, q) (List.mem_cons_self _ _)
      simp only at hshape hq
      cases p with
      | nil =>
        cases n with
        | zero =>
          exfalso
          rw [List.nil_append] at hn
          simp [hshape] at hn
        | succ m =>
          rw [show ([] : List Char) ++ (((s, q) :: tl).map fun sp => sp.1 ++ sp.2).flatten =
              btick :: (mid ++ btick :: (q ++ (tl.map fun sp => sp.1 ++ sp.2).flatten))
              from by simp [hshape]]
          simp only [splitCodeGo]
          rw [closeTick_build mid _ hmid]
          have hrec : splitCodeGo (q ++ (tl.map fun sp => sp.1 ++ sp.2).flatten) m =
              (q, tl) := by
            apply ih m (Nat.lt_succ_self m) q tl hq
              (fun x hx => hs x (List.mem_cons_of_mem _ hx))
            rw [List.nil_append] at hn
            simp only [List.map_cons, List.flatten_cons, hshape] at hn
            simp only [List.length_append, List.length_cons]
            simp only [List.length_cons, List.length_append, List.length_cons,
              List.length_singleton] at hn
            omega
          simp only [hrec]
          rw [if_pos trivial]
          simp [hshape]
      | cons c p' =>
        cases n with
        | zero =>
          exfalso
          simp at hn
        | succ m =>
          have hc : ¬(c = btick) := hp c (List.mem_cons_self c p')
          rw [show (c :: p') ++ (((s, q) :: tl).map fun sp => sp.1 ++ sp.2).flatten =
              c :: (p' ++ (((s, q) :: tl).map fun sp => sp.1 ++ sp.2).flatten) from rfl]
          simp only [splitCodeGo]
          rw [if_neg hc]
          have hrec := ih m (Nat.lt_succ_self m) p' ((s, q) :: tl)
            (fun x hx => hp x (List.mem_cons_of_mem c hx)) hs
            (by simp only [List.length_append, List.length_cons] at hn ⊢; omega)
          simp only [hrec]

theorem findClose2_eq : ∀ (l mid rest : List Char), findClose2 l = some (mid, rest) →
    l = mid ++ ']' :: ']' :: rest := by
  intro l
  induction l using findClose2.induct with
  | case1 r =>
    intro mid rest h
    replace h : (some (([] : List Char), r) : Option (List Char × List Char)) =
      some (mid, rest) := h
    injection h with h
    rw [Prod.mk.injEq] at h
    obtain ⟨h1, h2⟩ := h
    subst h1
    subst h2
    rfl
  | case2 cs hne =>
    intro mid rest h
    replace h : (if ('\n' : Char) = '\n' then none
        else Option.map (fun p => (('\n' : Char) :: p.1, p.2)) (findClose2 cs)) =
      some (mid, rest) := h
    rw [if_pos rfl] at h
    cases h
  | case3 c cs hne hnl ih =>
    intro mid rest h
    unfold findClose2 at h
    split at h
    · rename_i r heq
      rw [List.cons_eq_cons] at heq
      exact (hne r heq.1 heq.2).elim
    · rename_i c' cs' hx heq
      rw [List.cons_eq_cons] at heq
      obtain ⟨he1, he2⟩ := heq
      subst he1
      subst he2
      rw [if_neg hnl] at h
      rcases hf : findClose2 cs with _ | ⟨m', r'⟩ <;> rw [hf] at h
      · cases h
      · replace h : (some (c :: m', r') : Option (List Char × List Char)) =
          some (mid, rest) := h
        injection h with h
        rw [Prod.mk.injEq] at h
        obtain ⟨h1, h2⟩ := h
        subst h1
        subst h2
        rw [ih m' r' hf]
        rfl
    · cases h
  | case4 =>
    intro mid rest h
    cases h

theorem findClose_eq (l mid rest : List Char) (h : findClose l = some (mid, rest)) :
    l = mid ++ ']' :: ']' :: rest := by
  cases l with
  | nil => cases h
  | cons c cs =>
    replace h : (if c = '\n' then none
        else Option.map (fun p => (c :: p.1, p.2)) (findClose2 cs)) =
      some (mid, rest) := h
    by_cases h1 : c = '\n'
    · rw [if_pos h1] at h; cases h
    · rw [if_neg h1] at h
      rcases hf : findClose2 cs with _ | ⟨m', r'⟩ <;> rw [hf] at h
      · cases h
      · replace h : (some (c :: m', r') : Option (List Char × List Char)) =
          some (mid, rest) := h
        injection h with h
        rw [Prod.mk.injEq] at h
        obtain ⟨h2, h3⟩ := h
        subst h2
        subst h3
        rw [findClose2_eq cs m' r' hf]
        rfl

theorem matchAnchorTail_step (c : Char) (cs : List Char) :
    matchAnchorTail (c :: cs) =
      if c = '\n' then none
      else match tryAnchorClose cs with
        | some r => some ([c], r)
        | none => (matchAnchorTail cs).map fun p => (c :: p.1, p.2) := rfl

theorem findLastClose_eq : ∀ (l p rest : List Char),
    findLastClose l = some (p, rest) → l = p ++ ']' :: ']' :: rest := by
  intro l
  induction l with
  | nil => intro p rest h; cases h
  | cons c cs ih =>
    intro p rest h
    by_cases h1 : c = '\n'
    · rw [findLastClose_step, if_pos h1] at h; cases h
    · rcases hf : findLastClose cs with _ | ⟨q, r'⟩
      · rw [findLastClose_step, if_neg h1, hf] at h
        split at h
        · rename_i p' heq
          cases heq
        · split at h
          · injection h with h
            rw [Prod.mk.injEq] at h
            obtain ⟨h2, h3⟩ := h
            subst h2
            subst h3
            rfl
          · cases h
      · have hstep : findLastClose (c :: cs) = some (c :: q, r') := by
          rw [findLastClose_step, if_neg h1, hf]
        rw [hstep] at h
        injection h with h
        rw [Prod.mk.injEq] at h
        obtain ⟨h2, h3⟩ := h
        subst h2
        subst h3
        rw [ih q r' hf]
        rfl

theorem tryAnchorClose_eq (l rest : List Char) (h : tryAnchorClose l = some rest) :
    ∃ mid, l = mid ++ rest := by
  unfold tryAnchorClose at h
  split at h
  · rename_i r
    rcases hf : findLastClose r with _ | ⟨q, r'⟩ <;> rw [hf] at h
    · cases h
    · replace h : (some r' : Option (List Char)) = some rest := h
      injection h with h
      subst h
      refine ⟨'#' :: (q ++ [']', ']']), ?_⟩
      rw [findLastClose_eq r q r' hf]
      simp
  · rename_i r
    injection h with h
    subst h
    exact ⟨[']', ']'], rfl⟩
  · cases h

theorem matchAnchorTail_eq : ∀ (l g rest : List Char),
    matchAnchorTail l = some (g, rest) → ∃ mid, l = g ++ mid ++ rest := by
  intro l
  induction l with
  | nil => intro g rest h; cases h
  | cons c cs ih =>
    intro g rest h
    rw [matchAnchorTail_step] at h
    by_cases h1 : c = '\n'
    · rw [if_pos h1] at h; cases h
    · rw [if_neg h1] at h
      rcases ht : tryAnchorClose cs with _ | r <;> rw [ht] at h
      · replace h : (matchAnchorTail cs).map (fun p => (c :: p.1, p.2)) =
          some (g, rest) := h
        rcases hm : matchAnchorTail cs with _ | ⟨g', r'⟩ <;> rw [hm] at h
        · cases h
        · replace h : (some (c :: g', r') : Option (List Char × List Char)) =
            some (g, rest) := h
          injection h with h
          rw [Prod.mk.injEq] at h
          obtain ⟨h2, h3⟩ := h
          subst h2
          subst h3
          obtain ⟨mid, hmid⟩ := ih g' r' hm
          exact ⟨mid, by rw [hmid]; rfl⟩
      · replace h : (some ([c], r) : Option (List Char × List Char)) =
          some (g, rest) := h
        injection h with h
        rw [Prod.mk.injEq] at h
        obtain ⟨h2, h3⟩ := h
        subst h2
        subst h3
        obtain ⟨mid, hmid⟩ := tryAnchorClose_eq cs _ ht
        exact ⟨mid, by rw [hmid]; rfl⟩

theorem wikiSplitGo_no_tick : ∀ (l : List Char) (n : Nat),
    (∀ c ∈ l, c ≠ btick) →
    (∀ c ∈ (wikiSplitGo l n).1, c ≠ btick) ∧
    (∀ sp ∈ (wikiSplitGo l n).2, (∀ c ∈ sp.1, c ≠ btick) ∧ (∀ c ∈ sp.2, c ≠ btick)) := by
  intro l n
  induction l, n using wikiSplitGo.induct with
  | case1 l =>
    intro hl
    rw [show wikiSplitGo l 0 = (l, []) from by simp [wikiSplitGo]]
    exact ⟨hl, by intro sp hsp; cases hsp⟩
  | case2 t ht =>
    intro hl
    constructor
    · intro c hc; cases t <;> simp [wikiSplitGo] at hc
    · intro sp hsp; cases t <;> simp [wikiSplitGo] at hsp
  | case3 cs n mid rest hfc ih =>
    intro hl
    have hcs : ∀ c ∈ cs, c ≠ btick := fun c hc =>
      hl c (List.mem_cons_of_mem _ (List.mem_cons_of_mem _ hc))
    have hcseq := findClose_eq cs mid rest hfc
    have hmid : ∀ c ∈ mid, c ≠ btick := fun c hc =>
      hcs c (by rw [hcseq]; exact List.mem_append.mpr (Or.inl hc))
    have hrest : ∀ c ∈ rest, c ≠ btick := fun c hc =>
      hcs c (by
        rw [hcseq]
        exact List.mem_append.mpr
          (Or.inr (List.mem_cons_of_mem _ (List.mem_cons_of_mem _ hc))))
    obtain ⟨ih1, ih2⟩ := ih hrest
    rw [show wikiSplitGo ('[' :: '[' :: cs) (n + 1) =
        ([], ('[' :: '[' :: (mid ++ [']', ']']), (wikiSplitGo rest n).1) ::
          (wikiSplitGo rest n).2) from by simp [wikiSplitGo, hfc]]
    refine ⟨(by intro c hc; cases hc), ?_⟩
    intro sp hsp
    rcases List.mem_cons.mp hsp with rfl | hsp
    · refine ⟨?_, ih1⟩
      intro c hc
      rcases List.mem_cons.mp hc with rfl | hc
      · decide
      rcases List.mem_cons.mp hc with rfl | hc
      · decide
      rcases List.mem_append.mp hc with hc | hc
      · exact hmid c hc
      · simp only [List.mem_cons, List.mem_singleton] at hc
        rcases hc with rfl | rfl | hc
        · decide
        · decide
        · cases hc
    · exact ih2 sp hsp
  | case4 cs n hfc ih =>
    intro hl
    have h2 : ∀ c ∈ ('[' :: cs), c ≠ btick := by
      intro c hc
      rcases List.mem_cons.mp hc with rfl | hc
      · decide
      · exact hl c (List.mem_cons_of_mem _ (List.mem_cons_of_mem _ hc))
    obtain ⟨ih1, ih2⟩ := ih h2
    rw [show wikiSplitGo ('[' :: '[' :: cs) (n + 1) =
        ('[' :: (wikiSplitGo ('[' :: cs) n).1, (wikiSplitGo ('[' :: cs) n).2)
        from by simp [wikiSplitGo, hfc]]
    refine ⟨?_, ih2⟩
    intro c hc
    rcases List.mem_cons.mp hc with rfl | hc
    · decide
    · exact ih1 c hc
  | case5 c cs n hne ih =>
    intro hl
    obtain ⟨ih1, ih2⟩ := ih (fun x hx => hl x (List.mem_cons_of_mem _ hx))
    rw [show wikiSplitGo (c :: cs) (n + 1) =
        (c :: (wikiSplitGo cs n).1, (wikiSplitGo cs n).2)
        from by simp [wikiSplitGo, hne]]
    refine ⟨?_, ih2⟩
    intro x hx
    rcases List.mem_cons.mp hx with rfl | hx
    · exact hl x (List.mem_cons_self x cs)
    · exact ih1 x hx

theorem embedSplitGo_no_tick : ∀ (l : List Char) (n : Nat),
    (∀ c ∈ l, c ≠ btick) →
    (∀ c ∈ (embedSplitGo l n).1, c ≠ btick) ∧
    (∀ sp ∈ (embedSplitGo l n).2, (∀ c ∈ sp.1, c ≠ btick) ∧ (∀ c ∈ sp.2, c ≠ btick)) := by
  intro l n
  induction l, n using embedSplitGo.induct with
  | case1 l =>
    intro hl
    rw [show embedSplitGo l 0 = (l, []) from by simp [embedSplitGo]]
    exact ⟨hl, by intro sp hsp; cases hsp⟩
  | case2 t ht =>
    intro hl
    constructor
    · intro c hc; cases t <;> simp [embedSplitGo] at hc
    · intro sp hsp; cases t <;> simp [embedSplitGo] at hsp
  | case3 cs n mid rest hfc ih =>
    intro hl
    have hcs : ∀ c ∈ cs, c ≠ btick := fun c hc =>
      hl c (List.mem_cons_of_mem _ (List.mem_cons_of_mem _ (List.mem_cons_of_mem _ hc)))
    have hcseq := findClose_eq cs mid rest hfc
    have hmid : ∀ c ∈ mid, c ≠ btick := fun c hc =>
      hcs c (by rw [hcseq]; exact List.mem_append.mpr (Or.inl hc))
    have hrest : ∀ c ∈ rest, c ≠ btick := fun c hc =>
      hcs c (by
        rw [hcseq]
        exact List.mem_append.mpr
          (Or.inr (List.mem_cons_of_mem _ (List.mem_cons_of_mem _ hc))))
    obtain ⟨ih1, ih2⟩ := ih hrest
    rw [show embedSplitGo ('!' :: '[' :: '[' :: cs) (n + 1) =
        ([], ('!' :: '[' :: '[' :: (mid ++ [']', ']']), (embedSplitGo rest n).1) ::
          (embedSplitGo rest n).2) from by simp [embedSplitGo, hfc]]
    refine ⟨(by intro c hc; cases hc), ?_⟩
    intro sp hsp
    rcases List.mem_cons.mp hsp with rfl | hsp
    · refine ⟨?_, ih1⟩
      intro c hc
      rcases List.mem_cons.mp hc with rfl | hc
      · decide
      rcases List.mem_cons.mp hc with rfl | hc
      · decide
      rcases List.mem_cons.mp hc with rfl | hc
      · decide
      rcases List.mem_append.mp hc with hc | hc
      · exact hmid c hc
      · simp only [List.mem_cons, List.mem_singleton] at hc
        rcases hc with rfl | rfl | hc
        · decide
        · decide
        · cases hc
    · exact ih2 sp hsp
  | case4 cs n hfc ih =>
    intro hl
    have h2 : ∀ c ∈ ('[' :: '[' :: cs), c ≠ btick := by
      intro c hc
      rcases List.mem_cons.mp hc with rfl | hc
      · decide
      rcases List.mem_cons.mp hc with rfl | hc
      · decide
      · exact hl c
          (List.mem_cons_of_mem _ (List.mem_cons_of_mem _ (List.mem_cons_of_mem _ hc)))
    obtain ⟨ih1, ih2⟩ := ih h2
    rw [show embedSplitGo ('!' :: '[' :: '[' :: cs) (n + 1) =
        ('!' :: (embedSplitGo ('[' :: '[' :: cs) n).1, (embedSplitGo ('[' :: '[' :: cs) n).2)
        from by simp [embedSplitGo, hfc]]
    refine ⟨?_, ih2⟩
    intro c hc
    rcases List.mem_cons.mp hc with rfl | hc
    · decide
    · exact ih1 c hc
  | case5 c cs n hne ih =>
    intro hl
    obtain ⟨ih1, ih2⟩ := ih (fun x hx => hl x (List.mem_cons_of_mem _ hx))
    rw [show embedSplitGo (c :: cs) (n + 1) =
        (c :: (embedSplitGo cs n).1, (embedSplitGo cs n).2)
        from by simp [embedSplitGo, hne]]
    refine ⟨?_, ih2⟩
    intro x hx
    rcases List.mem_cons.mp hx with rfl | hx
    · exact hl x (List.mem_cons_self x cs)
    · exact ih1 x hx

theorem linkSubGo_no_tick : ∀ (l : List Char) (n : Nat),
    (∀ c ∈ l, c ≠ btick) → ∀ c ∈ linkSubGo l n, c ≠ btick := by
  intro l n
  induction l, n using linkSubGo.induct with
  | case1 l =>
    intro hl
    rw [show linkSubGo l 0 = l from by simp [linkSubGo]]
    exact hl
  | case2 t ht =>
    intro hl c hc
    cases t <;> simp [linkSubGo] at hc
  | case3 cs n g rest hm ih =>
    intro hl
    have hcs : ∀ c ∈ cs, c ≠ btick := fun c hc =>
      hl c (List.mem_cons_of_mem _ (List.mem_cons_of_mem _ hc))
    obtain ⟨mid, hmid⟩ := matchAnchorTail_eq cs g rest hm
    have hg : ∀ c ∈ g, c ≠ btick := fun c hc =>
      hcs c (by rw [hmid]; exact List.mem_append.mpr (Or.inl (List.mem_append.mpr (Or.inl hc))))
    have hrest : ∀ c ∈ rest, c ≠ btick := fun c hc =>
      hcs c (by rw [hmid]; exact List.mem_append.mpr (Or.inr hc))
    have ih' := ih hrest
    rw [show linkSubGo ('[' :: '[' :: cs) (n + 1) =
        '[' :: '[' :: (g ++ ']' :: ']' :: linkSubGo rest n)
        from by simp [linkSubGo, hm]]
    intro c hc
    rcases List.mem_cons.mp hc with rfl | hc
    · decide
    rcases List.mem_cons.mp hc with rfl | hc
    · decide
    rcases List.mem_append.mp hc with hc | hc
    · exact hg c hc
    rcases List.mem_cons.mp hc with rfl | hc
    · decide
    rcases List.mem_cons.mp hc with rfl | hc
    · decide
    · exact ih' c hc
  | case4 cs n hm ih =>
    intro hl
    have h2 : ∀ c ∈ ('[' :: cs), c ≠ btick := by
      intro c hc
      rcases List.mem_cons.mp hc with rfl | hc
      · decide
      · exact hl c (List.mem_cons_of_mem _ (List.mem_cons_of_mem _ hc))
    have ih' := ih h2
    rw [show linkSubGo ('[' :: '[' :: cs) (n + 1) = '[' :: linkSubGo ('[' :: cs) n
        from by simp [linkSubGo, hm]]
    intro c hc
    rcases List.mem_cons.mp hc with rfl | hc
    · decide
    · exact ih' c hc
  | case5 c cs n hne ih =>
    intro hl
    have ih' := ih (fun x hx => hl x (List.mem_cons_of_mem _ hx))
    rw [show linkSubGo (c :: cs) (n + 1) = c :: linkSubGo cs n
        from by simp [linkSubGo, hne]]
    intro x hx
    rcases List.mem_cons.mp hx with rfl | hx
    · exact hl x (List.mem_cons_self x cs)
    · exact ih' x hx

theorem embedAnchorSubGo_no_tick : ∀ (l : List Char) (n : Nat),
    (∀ c ∈ l, c ≠ btick) → ∀ c ∈ embedAnchorSubGo l n, c ≠ btick := by
  intro l n
  induction l, n using embedAnchorSubGo.induct with
  | case1 l =>
    intro hl
    rw [show embedAnchorSubGo l 0 = l from by simp [embedAnchorSubGo]]
    exact hl
  | case2 t ht =>
    intro hl c hc
    cases t <;> simp [embedAnchorSubGo] at hc
  | case3 cs n g rest hm ih =>
    intro hl
    have hcs : ∀ c ∈ cs, c ≠ btick := fun c hc =>
      hl c (List.mem_cons_of_mem _ (List.mem_cons_of_mem _ (List.mem_cons_of_mem _ hc)))
    obtain ⟨mid, hmid⟩ := matchAnchorTail_eq cs g rest hm
    have hg : ∀ c ∈ g, c ≠ btick := fun c hc =>
      hcs c (by rw [hmid]; exact List.mem_append.mpr (Or.inl (List.mem_append.mpr (Or.inl hc))))
    have hrest : ∀ c ∈ rest, c ≠ btick := fun c hc =>
      hcs c (by rw [hmid]; exact List.mem_append.mpr (Or.inr hc))
    have ih' := ih hrest
    rw [show embedAnchorSubGo ('!' :: '[' :: '[' :: cs) (n + 1) =
        "\x7b\x7bembed [[".data ++ g ++ "]]\x7d\x7d".data ++ embedAnchorSubGo rest n
        from by simp [embedAnchorSubGo, hm]]
    intro c hc
    rcases List.mem_append.mp hc with hc | hc
    · rcases List.mem_append.mp hc with hc | hc
      · rcases List.mem_append.mp hc with hc | hc
        · fin_cases hc <;> decide
        · exact hg c hc
      · fin_cases hc <;> decide
    · exact ih' c hc
  | case4 cs n hm ih =>
    intro hl
    have h2 : ∀ c ∈ ('[' :: '[' :: cs), c ≠ btick := by
      intro c hc
      rcases List.mem_cons.mp hc with rfl | hc
      · decide
      rcases List.mem_cons.mp hc with rfl | hc
      · decide
      · exact hl c
          (List.mem_cons_of_mem _ (List.mem_cons_of_mem _ (List.mem_cons_of_mem _ hc)))
    have ih' := ih h2
    rw [show embedAnchorSubGo ('!' :: '[' :: '[' :: cs) (n + 1) =
        '!' :: embedAnchorSubGo ('[' :: '[' :: cs) n
        from by simp [embedAnchorSubGo, hm]]
    intro c hc
    rcases List.mem_cons.mp hc with rfl | hc
    · decide
    · exact ih' c hc
  | case5 c cs n hne ih =>
    intro hl
    have ih' := ih (fun x hx => hl x (List.mem_cons_of_mem _ hx))
    rw [show embedAnchorSubGo (c :: cs) (n + 1) = c :: embedAnchorSubGo cs n
        from by simp [embedAnchorSubGo, hne]]
    intro x hx
    rcases List.mem_cons.mp hx with rfl | hx
    · exact hl x (List.mem_cons_self x cs)
    · exact ih' x hx

theorem linkPiece_no_tick (p : List Char) (hp : ∀ c ∈ p, c ≠ btick) :
    ∀ c ∈ linkPiece p, c ≠ btick := by
  intro x hx
  simp only [linkPiece, link_sub] at hx
  apply linkSubGo_no_tick _ _ ?_ x hx
  intro y hy
  simp only [recombine_splits_separators] at hy
  rcases List.mem_append.mp hy with hy | hy
  · exact (wikiSplitGo_no_tick p p.length hp).1 y hy
  · rw [List.mem_flatten] at hy
    obtain ⟨ll, hll, hyll⟩ := hy
    rw [List.mem_map] at hll
    obtain ⟨sp, hsp, rfl⟩ := hll
    rw [List.mem_map] at hsp
    obtain ⟨sp0, hsp0, rfl⟩ := hsp
    rcases List.mem_append.mp hyll with hy1 | hy2
    · obtain ⟨z, hz, rfl⟩ := List.mem_map.mp hy1
      rcases dotSlash_cases z with hd | hd <;> rw [hd]
      · exact ((wikiSplitGo_no_tick p p.length hp).2 sp0 hsp0).1 z hz
      · decide
    · exact ((wikiSplitGo_no_tick p p.length hp).2 sp0 hsp0).2 y hy2

theorem embedPiece_no_tick (p : List Char) (hp : ∀ c ∈ p, c ≠ btick) :
    ∀ c ∈ embedPiece p, c ≠ btick := by
  intro x hx
  simp only [embedPiece, embed_anchor_sub] at hx
  apply embedAnchorSubGo_no_tick _ _ ?_ x hx
  intro y hy
  simp only [recombine_splits_separators] at hy
  rcases List.mem_append.mp hy with hy | hy
  · exact (embedSplitGo_no_tick p p.length hp).1 y hy
  · rw [List.mem_flatten] at hy
    obtain ⟨ll, hll, hyll⟩ := hy
    rw [List.mem_map] at hll
    obtain ⟨sp, hsp, rfl⟩ := hll
    rw [List.mem_map] at hsp
    obtain ⟨sp0, hsp0, rfl⟩ := hsp
    rcases List.mem_append.mp hyll with hy1 | hy2
    · obtain ⟨z, hz, rfl⟩ := List.mem_map.mp hy1
      rcases dotSlash_cases z with hd | hd <;> rw [hd]
      · exact ((embedSplitGo_no_tick p p.length hp).2 sp0 hsp0).1 z hz
      · decide
    · exact ((embedSplitGo_no_tick p p.length hp).2 sp0 hsp0).2 y hy2

/-- C3 (amended): on a body line whose inline code spans are well
formed (the non-span pieces contain no backquote), the embed rewrite
and the link rewrite leave every inline code span byte-identical: the
list of code spans found by `inline_code_re` is unchanged by
`convert_embeds` and by `convert_internal_links`.  (The `/assets/`
image-path rewrite is applied to the whole line without code-span
protection and can modify a span, so it is excluded here.) -/
theorem C3_code_spans_embed_link (l : List Char)
    (h0 : ∀ c ∈ (split_code l).1, c ≠ btick)
    (hps : ∀ sp ∈ (split_code l).2, ∀ c ∈ sp.2, c ≠ btick) :
    code_separators (convert_embeds l) = code_separators l ∧
    code_separators (convert_internal_links l) = code_separators l := by
  have hshapes : ∀ sp ∈ (split_code l).2,
      ∃ mid, sp.1 = btick :: mid ++ [btick] ∧ ∀ c ∈ mid, c ≠ '\n' ∧ c ≠ btick := by
    intro sp hsp
    exact splitCodeGo_sep_shape l l.length sp hsp
  constructor
  · have hconv : convert_embeds l =
        recombine_splits_separators (embedPiece (split_code l).1)
          ((split_code l).2.map fun sp => (sp.1, embedPiece sp.2)) := by
      simp only [convert_embeds]
    have hb := splitCodeGo_build
      ((embedPiece (split_code l).1 ++
        (((split_code l).2.map fun sp => (sp.1, embedPiece sp.2)).map
          fun sp => sp.1 ++ sp.2).flatten).length)
      (embedPiece (split_code l).1)
      ((split_code l).2.map fun sp => (sp.1, embedPiece sp.2))
      (embedPiece_no_tick _ h0)
      (by
        intro sp hsp
        obtain ⟨sp0, hsp0, rfl⟩ := List.mem_map.mp hsp
        exact ⟨hshapes sp0 hsp0, embedPiece_no_tick _ (hps sp0 hsp0)⟩)
      (le_refl _)
    rw [hconv]
    unfold code_separators split_code
    unfold split_code at hb
    simp only [recombine_splits_separators]
    rw [hb]
    simp [List.map_map]
  · have hconv : convert_internal_links l =
        recombine_splits_separators (linkPiece (split_code l).1)
          ((split_code l).2.map fun sp => (sp.1, linkPiece sp.2)) := by
      simp only [convert_internal_links]
    have hb := splitCodeGo_build
      ((linkPiece (split_code l).1 ++
        (((split_code l).2.map fun sp => (sp.1, linkPiece sp.2)).map
          fun sp => sp.1 ++ sp.2).flatten).length)
      (linkPiece (split_code l).1)
      ((split_code l).2.map fun sp => (sp.1, linkPiece sp.2))
      (linkPiece_no_tick _ h0)
      (by
        intro sp hsp
        obtain ⟨sp0, hsp0, rfl⟩ := List.mem_map.mp hsp
        exact ⟨hshapes sp0 hsp0, linkPiece_no_tick _ (hps sp0 hsp0)⟩)
      (le_refl _)
    rw [hconv]
    unfold code_separators split_code
    unfold split_code at hb
    simp only [recombine_splits_separators]
    rw [hb]
    simp [List.map_map]

theorem C3_code_spans_embed_link_witness :
    code_separators (convert_embeds
        "a \x60x.y\x60 and ![[p.q#1]] \x60[[u.v]]\x60 end [[m.n]]\n".data) =
      code_separators "a \x60x.y\x60 and ![[p.q#1]] \x60[[u.v]]\x60 end [[m.n]]\n".data ∧
    code_separators (convert_internal_links
        "a \x60x.y\x60 and ![[p.q#1]] \x60[[u.v]]\x60 end [[m.n]]\n".data) =
      code_separators "a \x60x.y\x60 and ![[p.q#1]] \x60[[u.v]]\x60 end [[m.n]]\n".data :=
  C3_code_spans_embed_link _ (by decide) (by decide)

/-! ## C7: helper lemmas -/

theorem mem_nIndent {x : Char} {ind : List Char} {n : Nat}
    (h : x ∈ nIndent ind n) : x ∈ ind := by
  unfold nIndent at h
  rw [List.mem_flatten] at h
  obtain ⟨l, hl, hx⟩ := h
  rw [List.eq_of_mem_replicate hl] at hx
  exact hx

theorem pyLstrip_cons_nonws {c : Char} (r : List Char) (hc : isPyWs c = false) :
    pyLstrip (c :: r) = c :: r := by
  unfold pyLstrip
  rw [List.dropWhile_cons, hc]
  simp

theorem isBlankL_cons_nonws {c : Char} (r : List Char) (hc : isPyWs c = false) :
    isBlankL (c :: r) = false := by
  rcases hb : isBlankL (c :: r) with _ | _
  · rfl
  · have := isBlankL_iff_all.mp hb c (List.mem_cons_self c r)
    rw [hc] at this
    cases this

theorem countLeadingSpaces_cons_ne {c : Char} (cs : List Char) (h : c ≠ ' ') :
    countLeadingSpaces (c :: cs) = 0 := by
  unfold countLeadingSpaces
  split
  · rename_i heq
    rw [List.cons_eq_cons] at heq
    exact absurd heq.1 h
  · rfl

theorem containsSub_cons (pat : List Char) (c : Char) (r : List Char) :
    containsSub pat (c :: r) = (pat.isPrefixOf (c :: r) || containsSub pat r) := by
  unfold containsSub
  rw [show (c :: r).tails = (c :: r) :: r.tails from by simp [List.tails]]
  rw [List.any_cons]

theorem containsSub_cons_false {pat : List Char} {c : Char} {r : List Char}
    (h : containsSub pat (c :: r) = false) : containsSub pat r = false := by
  rw [containsSub_cons] at h
  exact (Bool.or_eq_false_iff.mp h).2

theorem isPrefixOf_cons_false {p : Char} (ps : List Char) {c : Char} (r : List Char)
    (h : ¬(p = c)) : (p :: ps).isPrefixOf (c :: r) = false := by
  simp [List.isPrefixOf, h]

theorem containsSub_assets_append (p l : List Char) (hp : ∀ c ∈ p, c ≠ 'a')
    (hl : containsSub "assets".data l = false) :
    containsSub "assets".data (p ++ l) = false := by
  induction p with
  | nil => exact hl
  | cons c p' ih =>
    show containsSub "assets".data (c :: (p' ++ l)) = false
    rw [containsSub_cons]
    rw [show ("assets".data : List Char) = 'a' :: "ssets".data from rfl]
    rw [isPrefixOf_cons_false "ssets".data (p' ++ l)
      (fun hac => hp c (List.mem_cons_self c p') hac.symm)]
    rw [ih (fun x hx => hp x (List.mem_cons_of_mem c hx))]
    rfl

theorem heading_try_head {l : List Char} {n : Nat} (h : heading_try l = some n) :
    ∃ t, l = '#' :: t := by
  unfold heading_try at h
  split at h
  · rename_i heq
    cases l with
    | nil => cases heq
    | cons c cs =>
      rw [List.head?_cons] at heq
      injection heq with heq
      exact ⟨cs, by rw [heq]⟩
  · cases h

theorem wikiSplitGo_no_lbracket : ∀ (l : List Char) (n : Nat),
    (∀ c ∈ l, c ≠ '[') → wikiSplitGo l n = (l, []) := by
  intro l n
  induction l, n using wikiSplitGo.induct with
  | case1 l => intro h; simp [wikiSplitGo]
  | case2 t ht => intro h; cases t <;> simp [wikiSplitGo]
  | case3 cs n mid rest hfc ih =>
    intro h
    exact absurd rfl (h '[' (List.mem_cons_self _ _))
  | case4 cs n hfc ih =>
    intro h
    exact absurd rfl (h '[' (List.mem_cons_self _ _))
  | case5 c cs n hne ih =>
    intro h
    rw [show wikiSplitGo (c :: cs) (n + 1) =
        (c :: (wikiSplitGo cs n).1, (wikiSplitGo cs n).2)
        from by simp [wikiSplitGo, hne]]
    rw [ih (fun x hx => h x (List.mem_cons_of_mem _ hx))]

theorem linkSubGo_no_lbracket : ∀ (l : List Char) (n : Nat),
    (∀ c ∈ l, c ≠ '[') → linkSubGo l n = l := by
  intro l n
  induction l, n using linkSubGo.induct with
  | case1 l => intro h; simp [linkSubGo]
  | case2 t ht => intro h; cases t <;> simp [linkSubGo]
  | case3 cs n g rest hm ih =>
    intro h
    exact absurd rfl (h '[' (List.mem_cons_self _ _))
  | case4 cs n hm ih =>
    intro h
    exact absurd rfl (h '[' (List.mem_cons_self _ _))
  | case5 c cs n hne ih =>
    intro h
    rw [show linkSubGo (c :: cs) (n + 1) = c :: linkSubGo cs n
        from by simp [linkSubGo, hne]]
    rw [ih (fun x hx => h x (List.mem_cons_of_mem _ hx))]

theorem embedSplitGo_no_lbracket : ∀ (l : List Char) (n : Nat),
    (∀ c ∈ l, c ≠ '[') → embedSplitGo l n = (l, []) := by
  intro l n
  induction l, n using embedSplitGo.induct with
  | case1 l => intro h; simp [embedSplitGo]
  | case2 t ht => intro h; cases t <;> simp [embedSplitGo]
  | case3 cs n mid rest hfc ih =>
    intro h
    exact absurd rfl (h '[' (List.mem_cons_of_mem _ (List.mem_cons_self _ _)))
  | case4 cs n hfc ih =>
    intro h
    exact absurd rfl (h '[' (List.mem_cons_of_mem _ (List.mem_cons_self _ _)))
  | case5 c cs n hne ih =>
    intro h
    rw [show embedSplitGo (c :: cs) (n + 1) =
        (c :: (embedSplitGo cs n).1, (embedSplitGo cs n).2)
        from by simp [embedSplitGo, hne]]
    rw [ih (fun x hx => h x (List.mem_cons_of_mem _ hx))]

theorem embedAnchorSubGo_no_lbracket : ∀ (l : List Char) (n : Nat),
    (∀ c ∈ l, c ≠ '[') → embedAnchorSubGo l n = l := by
  intro l n
  induction l, n using embedAnchorSubGo.induct with
  | case1 l => intro h; simp [embedAnchorSubGo]
  | case2 t ht => intro h; cases t <;> simp [embedAnchorSubGo]
  | case3 cs n g rest hm ih =>
    intro h
    exact absurd rfl (h '[' (List.mem_cons_of_mem _ (List.mem_cons_self _ _)))
  | case4 cs n hm ih =>
    intro h
    exact absurd rfl (h '[' (List.mem_cons_of_mem _ (List.mem_cons_self _ _)))
  | case5 c cs n hne ih =>
    intro h
    rw [show embedAnchorSubGo (c :: cs) (n + 1) = c :: embedAnchorSubGo cs n
        from by simp [embedAnchorSubGo, hne]]
    rw [ih (fun x hx => h x (List.mem_cons_of_mem _ hx))]

theorem convert_internal_links_id (l : List Char)
    (h : ∀ c ∈ l, c ≠ btick ∧ c ≠ '[') :
    convert_internal_links l = l := by
  have hsc : split_code l = (l, []) := by
    unfold split_code
    exact splitCodeGo_no_tick l (fun c hc => (h c hc).1) _
  have hws : wiki_split l = (l, []) := by
    unfold wiki_split
    exact wikiSplitGo_no_lbracket l _ (fun c hc => (h c hc).2)
  have hlp : linkPiece l = l := by
    simp only [linkPiece]
    rw [hws]
    simp [recombine_splits_separators]
    unfold link_sub
    exact linkSubGo_no_lbracket l _ (fun c hc => (h c hc).2)
  simp only [convert_internal_links]
  rw [hsc]
  simp [recombine_splits_separators, hlp]

theorem convert_embeds_id (l : List Char)
    (h : ∀ c ∈ l, c ≠ btick ∧ c ≠ '[') :
    convert_embeds l = l := by
  have hsc : split_code l = (l, []) := by
    unfold split_code
    exact splitCodeGo_no_tick l (fun c hc => (h c hc).1) _
  have hes : embed_split l = (l, []) := by
    unfold embed_split
    exact embedSplitGo_no_lbracket l _ (fun c hc => (h c hc).2)
  have hep : embedPiece l = l := by
    simp only [embedPiece]
    rw [hes]
    simp [recombine_splits_separators]
    unfold embed_anchor_sub
    exact embedAnchorSubGo_no_lbracket l _ (fun c hc => (h c hc).2)
  simp only [convert_embeds]
  rw [hsc]
  simp [recombine_splits_separators, hep]

theorem apply_token_rewrites_id (l : List Char)
    (h : ∀ c ∈ l, c ≠ btick ∧ c ≠ '[')
    (ha : containsSub "assets".data l = false) :
    apply_token_rewrites l = l := by
  simp only [apply_token_rewrites]
  rw [convert_embeds_id l h, convert_internal_links_id l h, ha]
  simp

theorem dropWhile_append_singleton {c : Char} (rr : List Char)
    (hc : isPyWs c = false) :
    (rr ++ [c]).dropWhile isPyWs = rr.dropWhile isPyWs ++ [c] := by
  induction rr with
  | nil => simp [List.dropWhile_cons, hc]
  | cons x rr' ih =>
    rcases hx : isPyWs x with _ | _
    · simp [List.dropWhile_cons, hx]
    · simp [List.dropWhile_cons, hx, ih]

theorem pyRstrip_cons_nonws {c : Char} (r : List Char) (hc : isPyWs c = false) :
    pyRstrip (c :: r) = c :: pyRstrip r := by
  unfold pyRstrip
  rw [List.reverse_cons, dropWhile_append_singleton r.reverse hc]
  simp

theorem pyStrip_cons_nonws {c : Char} (r : List Char) (hc : isPyWs c = false) :
    pyStrip (c :: r) = c :: pyRstrip r := by
  unfold pyStrip
  rw [pyRstrip_cons_nonws r hc, pyLstrip_cons_nonws _ hc]

theorem processLine_heading (cfg : Config) (st : St) (l : List Char) (N : Nat)
    (hflc : st.firstLineChecked = true) (hfm : st.frontmatterHandled = true)
    (hib : st.inBody = true)
    (hcf : st.contentStack.head? ≠ some Tag.fenced_code_block)
    (hci : st.contentStack.head? ≠ some Tag.indented_code_block)
    (hht : heading_try l = some N) :
    processLine cfg st l = some (headingStep cfg st l l N) := by
  obtain ⟨t, rfl⟩ := heading_try_head hht
  have hnws : isPyWs '#' = false := by decide
  have hls : pyLstrip ('#' :: t) = '#' :: t := pyLstrip_cons_nonws t hnws
  unfold processLine
  rw [hflc]
  simp only [Bool.not_true, Bool.false_eq_true, if_false, reduceIte]
  rw [hfm]
  simp only [Bool.not_true, Bool.false_eq_true, if_false, reduceIte]
  rw [hib]
  simp only [Bool.not_true, Bool.false_eq_true, if_false, reduceIte]
  unfold bodyMain
  simp only [List.head?_cons]
  rw [if_neg (by decide : ¬ ('#' = '\t'))]
  rw [hls]
  rw [isPrefixOf_cons_false ['\x60', '\x60'] t (by decide : ¬ ('\x60' = '#'))]
  simp only [Bool.false_eq_true, if_false, reduceIte]
  rw [if_neg hcf]
  have hip : indentedPhase cfg st ('#' :: t) ('#' :: t) = .inl st := by
    unfold indentedPhase
    rw [isPrefixOf_cons_false [' ', ' ', ' '] t (by decide : ¬ (' ' = '#'))]
    simp only [Bool.false_eq_true, if_false, reduceIte]
    rw [if_neg hci]
  rw [hip]
  simp only []
  rw [if_neg (by rw [isBlankL_cons_nonws t hnws]; intro h; cases h)]
  have hhr : ¬(pyStrip ('#' :: t) = "---".data ∨ pyStrip ('#' :: t) = "***".data) := by
    rw [pyStrip_cons_nonws t hnws]
    intro hor
    rcases hor with h | h <;> (rw [List.cons_eq_cons] at h; exact absurd h.1 (by decide))
  rw [if_neg hhr, hht]

theorem processLine_plain (cfg : Config) (st : St) (c : Char) (r : List Char)
    (hflc : st.firstLineChecked = true) (hfm : st.frontmatterHandled = true)
    (hib : st.inBody = true)
    (hcf : st.contentStack.head? ≠ some Tag.fenced_code_block)
    (hci : st.contentStack.head? ≠ some Tag.indented_code_block)
    (hc : isPyWs c = false) (hbt : c ≠ btick)
    (hht2 : heading_try (c :: r) = none) :
    processLine cfg st (c :: r) =
      (if pyStrip (c :: r) = "---".data ∨ pyStrip (c :: r) = "***".data then
        some (hrStep cfg st (c :: r) (c :: r))
      else if c = '>' then some (quoteStep cfg st (c :: r) (c :: r))
      else some (listOrParaStep cfg st (c :: r) (c :: r))) := by
  have hct : ¬(c = '\t') := by
    intro he
    rw [he] at hc
    exact absurd hc (by decide)
  have hcsp : ¬(' ' = c) := by
    intro he
    rw [← he] at hc
    exact absurd hc (by decide)
  have hls : pyLstrip (c :: r) = c :: r := pyLstrip_cons_nonws r hc
  unfold processLine
  rw [hflc]
  simp only [Bool.not_true, Bool.false_eq_true, if_false, reduceIte]
  rw [hfm]
  simp only [Bool.not_true, Bool.false_eq_true, if_false, reduceIte]
  rw [hib]
  simp only [Bool.not_true, Bool.false_eq_true, if_false, reduceIte]
  unfold bodyMain
  simp only [List.head?_cons]
  rw [if_neg hct]
  rw [hls]
  rw [isPrefixOf_cons_false ['\x60', '\x60'] r (show ¬('\x60' = c) from fun he => hbt he.symm)]
  simp only [Bool.false_eq_true, if_false, reduceIte]
  rw [if_neg hcf]
  have hip : indentedPhase cfg st (c :: r) (c :: r) = .inl st := by
    unfold indentedPhase
    rw [isPrefixOf_cons_false [' ', ' ', ' '] r hcsp]
    simp only [Bool.false_eq_true, if_false, reduceIte]
    rw [if_neg hci]
  rw [hip]
  simp only []
  rw [if_neg (by rw [isBlankL_cons_nonws r hc]; intro h; cases h)]
  rw [hht2]
  rfl

theorem take_one_eq_space {r : List Char} (h : r.take 1 = [' ']) :
    ∃ r', r = ' ' :: r' := by
  cases r with
  | nil => cases h
  | cons d ds =>
    rw [List.take_succ_cons, List.take_zero] at h
    rw [List.cons_eq_cons] at h
    exact ⟨ds, by rw [h.1]⟩

/-- C7: a heading of depth `N` (`N` hashes then a space) immediately
followed by a non-blank flush-left body line (no leading whitespace, not
itself a heading, with no backquote, bracket or `assets` text that would
trigger the other rewrites) emits that body line at a base indentation
depth of exactly `N` indent units: the emitted line is
`INDENT*N ++ rest` where `rest` does not itself start with the indent
unit. -/
theorem C7_heading_depth (cfg : Config) (st : St) (hl : List Char) (N : Nat)
    (c : Char) (r : List Char)
    (hflc : st.firstLineChecked = true) (hfm : st.frontmatterHandled = true)
    (hib : st.inBody = true)
    (hcf : st.contentStack.head? ≠ some Tag.fenced_code_block)
    (hci : st.contentStack.head? ≠ some Tag.indented_code_block)
    (hind : cfg.indent = ['\t'] ∨ cfg.indent = [' ', ' ', ' ', ' '])
    (hhl : heading_try hl = some N)
    (hc : isPyWs c = false)
    (hht2 : heading_try (c :: r) = none)
    (hchars : ∀ x ∈ c :: r, x ≠ btick ∧ x ≠ '[')
    (hassets : containsSub "assets".data (c :: r) = false) :
    ∃ st2 st3 rest,
      processLine cfg st hl = some st2 ∧
      st2.headingLevel = N ∧ st2.indentLevel = 0 ∧
      processLine cfg st2 (c :: r) = some st3 ∧
      st3.output = st2.output ++ [nIndent cfg.indent N ++ rest] ∧
      rest ≠ [] ∧
      cfg.indent.isPrefixOf rest = false := by
  obtain ⟨t', rfl⟩ := heading_try_head hhl
  have h1 := processLine_heading cfg st ('#' :: t') N hflc hfm hib hcf hci hhl
  have hindg : ∀ x ∈ cfg.indent, x ≠ btick ∧ x ≠ '[' ∧ x ≠ 'a' := by
    rcases hind with h | h <;> rw [h] <;> decide
  have hpref : ∀ (d : Char) (rs : List Char), ¬(d = '\t') → ¬(d = ' ') →
      cfg.indent.isPrefixOf (d :: rs) = false := by
    intro d rs h1' h2'
    have hbt : ('\t' == d) = false := by
      rcases hbe : ('\t' == d) with _ | _
      · rfl
      · exact absurd (beq_iff_eq.mp hbe).symm h1'
    have hbs : (' ' == d) = false := by
      rcases hbe : (' ' == d) with _ | _
      · rfl
      · exact absurd (beq_iff_eq.mp hbe).symm h2'
    rcases hind with h | h <;> rw [h] <;> simp [List.isPrefixOf, hbt, hbs]
  have hcsp : ¬(' ' = c) := by
    intro he
    rw [← he] at hc
    exact absurd hc (by decide)
  have hspc : (' ' == c) = false := by
    rcases hbe : (' ' == c) with _ | _
    · rfl
    · exact absurd (beq_iff_eq.mp hbe) hcsp
  have hpref2 : ∀ (rs : List Char), cfg.indent.isPrefixOf (' ' :: ' ' :: c :: rs) = false := by
    intro rs
    rcases hind with h | h <;> rw [h] <;> simp [List.isPrefixOf, hspc]
  have hbt : c ≠ btick := (hchars c (List.mem_cons_self c r)).1
  have hhead : (headingStep cfg st ('#' :: t') ('#' :: t') N).contentStack.head? =
      some Tag.heading := rfl
  have hlistc : (headingStep cfg st ('#' :: t') ('#' :: t') N).contentStack.contains
      Tag.list = false := rfl
  have hcf2 : (headingStep cfg st ('#' :: t') ('#' :: t') N).contentStack.head? ≠
      some Tag.fenced_code_block := by rw [hhead]; decide
  have hci2 : (headingStep cfg st ('#' :: t') ('#' :: t') N).contentStack.head? ≠
      some Tag.indented_code_block := by rw [hhead]; decide
  have hnl : ¬((headingStep cfg st ('#' :: t') ('#' :: t') N).contentStack.contains
      Tag.list = true) := by rw [hlistc]; decide
  have hnbq : (headingStep cfg st ('#' :: t') ('#' :: t') N).contentStack.head? ≠
      some Tag.blockquote := by rw [hhead]; decide
  have h2 := processLine_plain cfg (headingStep cfg st ('#' :: t') ('#' :: t') N) c r
    hflc hfm hib hcf2 hci2 hc hbt hht2
  have hpn : prevNonblank (headingStep cfg st ('#' :: t') ('#' :: t') N) = true := by
    show (!isBlankL ('#' :: t')) = true
    rw [isBlankL_cons_nonws t' (by decide)]
    rfl
  by_cases hhr : pyStrip (c :: r) = "---".data ∨ pyStrip (c :: r) = "***".data
  · rw [if_pos hhr] at h2
    refine ⟨headingStep cfg st ('#' :: t') ('#' :: t') N, _, '-' :: ' ' :: (c :: r),
      h1, rfl, rfl, h2, ?_, List.cons_ne_nil _ _, hpref '-' _ (by decide) (by decide)⟩
    simp [hrStep, pyLstrip_cons_nonws r hc, List.append_assoc]
    rfl
  · rw [if_neg hhr] at h2
    by_cases hq : c = '>'
    · subst hq
      rw [if_pos rfl] at h2
      have hchq : ∀ x ∈ nIndent cfg.indent
          (headingStep cfg st ('#' :: t') ('#' :: t') N).headingLevel ++
          "- ".data ++ ('>' :: r), x ≠ btick ∧ x ≠ '[' := by
        intro x hx
        rcases List.mem_append.mp hx with hx | hx
        · rcases List.mem_append.mp hx with hx | hx
          · exact ⟨(hindg x (mem_nIndent hx)).1, (hindg x (mem_nIndent hx)).2.1⟩
          · simp only [List.mem_cons, List.mem_singleton] at hx
            rcases hx with rfl | rfl | hx
            · decide
            · decide
            · cases hx
        · exact hchars x hx
      have hval : (quoteStep cfg (headingStep cfg st ('#' :: t') ('#' :: t') N)
          ('>' :: r) ('>' :: r)).output =
          (headingStep cfg st ('#' :: t') ('#' :: t') N).output ++
            [nIndent cfg.indent N ++ ('-' :: ' ' :: ('>' :: r))] := by
        simp only [quoteStep]
        rw [if_neg hnl]
        rw [if_neg hnbq]
        simp only []
        rw [convert_internal_links_id _ hchq]
        simp [List.append_assoc]
        rfl
      exact ⟨headingStep cfg st ('#' :: t') ('#' :: t') N, _, '-' :: ' ' :: ('>' :: r),
        h1, rfl, rfl, h2, hval, List.cons_ne_nil _ _,
        hpref '-' _ (by decide) (by decide)⟩
    · rw [if_neg hq] at h2
      by_cases hb2 : (pyLstrip (c :: r)).take 2 = ['-', ' '] ∨
          (pyLstrip (c :: r)).take 2 = ['*', ' '] ∨ (pyLstrip (c :: r)).take 2 = ['+', ' ']
      · rw [pyLstrip_cons_nonws r hc] at hb2
        rcases hb2 with h | h | h
        · rw [show (c :: r).take 2 = c :: r.take 1 from rfl, List.cons_eq_cons] at h
          obtain ⟨hc1, hr1⟩ := h
          subst hc1
          obtain ⟨r'', rfl⟩ := take_one_eq_space hr1
          have hval : (listOrParaStep cfg (headingStep cfg st ('#' :: t') ('#' :: t') N)
              ('-' :: ' ' :: r'') ('-' :: ' ' :: r'')).output =
              (headingStep cfg st ('#' :: t') ('#' :: t') N).output ++
                [nIndent cfg.indent N ++ ('-' :: ' ' :: r'')] := by
            simp only [listOrParaStep]
            rw [if_pos (Or.inl (show (pyLstrip ('-' :: ' ' :: r'')).take 2 = ['-', ' ']
              from by rw [pyLstrip_cons_nonws _ (by decide)]; rfl))]
            simp only []
            rw [show bullet_sub ('-' :: ' ' :: r'') = '-' :: ' ' :: r'' from rfl]
            rw [apply_token_rewrites_id _ ?chars ?assets]
            case chars =>
              intro x hx
              rcases List.mem_append.mp hx with hx | hx
              · exact ⟨(hindg x (mem_nIndent hx)).1, (hindg x (mem_nIndent hx)).2.1⟩
              rcases List.mem_cons.mp hx with rfl | hx
              · decide
              rcases List.mem_cons.mp hx with rfl | hx
              · decide
              · exact hchars x (List.mem_cons_of_mem _ (List.mem_cons_of_mem _ hx))
            case assets =>
              rw [show nIndent cfg.indent
                  (headingStep cfg st ('#' :: t') ('#' :: t') N).headingLevel ++
                  ('-' :: ' ' :: r'') =
                  (nIndent cfg.indent
                    (headingStep cfg st ('#' :: t') ('#' :: t') N).headingLevel ++
                    ['-', ' ']) ++ r'' from by simp]
              refine containsSub_assets_append _ _ ?_
                (containsSub_cons_false (containsSub_cons_false hassets))
              intro x hx
              rcases List.mem_append.mp hx with hx | hx
              · exact (hindg x (mem_nIndent hx)).2.2
              · simp only [List.mem_cons, List.mem_singleton] at hx
                rcases hx with rfl | rfl | hx
                · decide
                · decide
                · cases hx
            rfl
          exact ⟨headingStep cfg st ('#' :: t') ('#' :: t') N, _, '-' :: ' ' :: r'',
            h1, rfl, rfl, h2, hval, List.cons_ne_nil _ _,
            hpref '-' _ (by decide) (by decide)⟩
        · rw [show (c :: r).take 2 = c :: r.take 1 from rfl, List.cons_eq_cons] at h
          obtain ⟨hc1, hr1⟩ := h
          subst hc1
          obtain ⟨r'', rfl⟩ := take_one_eq_space hr1
          have hval : (listOrParaStep cfg (headingStep cfg st ('#' :: t') ('#' :: t') N)
              ('*' :: ' ' :: r'') ('*' :: ' ' :: r'')).output =
              (headingStep cfg st ('#' :: t') ('#' :: t') N).output ++
                [nIndent cfg.indent N ++ ('-' :: ' ' :: r'')] := by
            simp only [listOrParaStep]
            rw [if_pos (Or.inr (Or.inl (show (pyLstrip ('*' :: ' ' :: r'')).take 2 = ['*', ' ']
              from by rw [pyLstrip_cons_nonws _ (by decide)]; rfl)))]
            simp only []
            rw [show bullet_sub ('*' :: ' ' :: r'') = '-' :: ' ' :: r'' from rfl]
            rw [apply_token_rewrites_id _ ?chars ?assets]
            case chars =>
              intro x hx
              rcases List.mem_append.mp hx with hx | hx
              · exact ⟨(hindg x (mem_nIndent hx)).1, (hindg x (mem_nIndent hx)).2.1⟩
              rcases List.mem_cons.mp hx with rfl | hx
              · decide
              rcases List.mem_cons.mp hx with rfl | hx
              · decide
              · exact hchars x (List.mem_cons_of_mem _ (List.mem_cons_of_mem _ hx))
            case assets =>
              rw [show nIndent cfg.indent
                  (headingStep cfg st ('#' :: t') ('#' :: t') N).headingLevel ++
                  ('-' :: ' ' :: r'') =
                  (nIndent cfg.indent
                    (headingStep cfg st ('#' :: t') ('#' :: t') N).headingLevel ++
                    ['-', ' ']) ++ r'' from by simp]
              refine containsSub_assets_append _ _ ?_
                (containsSub_cons_false (containsSub_cons_false hassets))
              intro x hx
              rcases List.mem_append.mp hx with hx | hx
              · exact (hindg x (mem_nIndent hx)).2.2
              · simp only [List.mem_cons, List.mem_singleton] at hx
                rcases hx with rfl | rfl | hx
                · decide
                · decide
                · cases hx
            rfl
          exact ⟨headingStep cfg st ('#' :: t') ('#' :: t') N, _, '-' :: ' ' :: r'',
            h1, rfl, rfl, h2, hval, List.cons_ne_nil _ _,
            hpref '-' _ (by decide) (by decide)⟩
        · rw [show (c :: r).take 2 = c :: r.take 1 from rfl, List.cons_eq_cons] at h
          obtain ⟨hc1, hr1⟩ := h
          subst hc1
          obtain ⟨r'', rfl⟩ := take_one_eq_space hr1
          have hval : (listOrParaStep cfg (headingStep cfg st ('#' :: t') ('#' :: t') N)
              ('+' :: ' ' :: r'') ('+' :: ' ' :: r'')).output =
              (headingStep cfg st ('#' :: t') ('#' :: t') N).output ++
                [nIndent cfg.indent N ++ ('-' :: ' ' :: r'')] := by
            simp only [listOrParaStep]
            rw [if_pos (Or.inr (Or.inr (show (pyLstrip ('+' :: ' ' :: r'')).take 2 = ['+', ' ']
              from by rw [pyLstrip_cons_nonws _ (by decide)]; rfl)))]
            simp only []
            rw [show bullet_sub ('+' :: ' ' :: r'') = '-' :: ' ' :: r'' from rfl]
            rw [apply_token_rewrites_id _ ?chars ?assets]
            case chars =>
              intro x hx
              rcases List.mem_append.mp hx with hx | hx
              · exact ⟨(hindg x (mem_nIndent hx)).1, (hindg x (mem_nIndent hx)).2.1⟩
              rcases List.mem_cons.mp hx with rfl | hx
              · decide
              rcases List.mem_cons.mp hx with rfl | hx
              · decide
              · exact hchars x (List.mem_cons_of_mem _ (List.mem_cons_of_mem _ hx))
            case assets =>
              rw [show nIndent cfg.indent
                  (headingStep cfg st ('#' :: t') ('#' :: t') N).headingLevel ++
                  ('-' :: ' ' :: r'') =
                  (nIndent cfg.indent
                    (headingStep cfg st ('#' :: t') ('#' :: t') N).headingLevel ++
                    ['-', ' ']) ++ r'' from by simp]
              refine containsSub_assets_append _ _ ?_
                (containsSub_cons_false (containsSub_cons_false hassets))
              intro x hx
              rcases List.mem_append.mp hx with hx | hx
              · exact (hindg x (mem_nIndent hx)).2.2
              · simp only [List.mem_cons, List.mem_singleton] at hx
                rcases hx with rfl | rfl | hx
                · decide
                · decide
                · cases hx
            rfl
          exact ⟨headingStep cfg st ('#' :: t') ('#' :: t') N, _, '-' :: ' ' :: r'',
            h1, rfl, rfl, h2, hval, List.cons_ne_nil _ _,
            hpref '-' _ (by decide) (by decide)⟩
      · have hval : (listOrParaStep cfg (headingStep cfg st ('#' :: t') ('#' :: t') N)
            (c :: r) (c :: r)).output =
            (headingStep cfg st ('#' :: t') ('#' :: t') N).output ++
              [nIndent cfg.indent N ++ (' ' :: ' ' :: (c :: r))] := by
          simp only [listOrParaStep]
          rw [if_neg hb2]
          rw [if_pos (show prevNonblank (headingStep cfg st ('#' :: t') ('#' :: t') N) = true ∧
            get_indent_level (c :: r) ≥
              (headingStep cfg st ('#' :: t') ('#' :: t') N).indentLevel
            from ⟨hpn, Nat.zero_le _⟩)]
          simp only []
          rw [apply_token_rewrites_id _ ?chars ?assets]
          case chars =>
            intro x hx
            rcases List.mem_append.mp hx with hx | hx
            · rcases List.mem_append.mp hx with hx | hx
              · exact ⟨(hindg x (mem_nIndent hx)).1, (hindg x (mem_nIndent hx)).2.1⟩
              · simp only [List.mem_cons, List.mem_singleton] at hx
                rcases hx with rfl | rfl | hx
                · decide
                · decide
                · cases hx
            · exact hchars x hx
          case assets =>
            rw [show nIndent cfg.indent
                (headingStep cfg st ('#' :: t') ('#' :: t') N).headingLevel ++
                "  ".data ++ (c :: r) =
                (nIndent cfg.indent
                  (headingStep cfg st ('#' :: t') ('#' :: t') N).headingLevel ++
                  [' ', ' ']) ++ (c :: r) from by simp]
            refine containsSub_assets_append _ _ ?_ hassets
            intro x hx
            rcases List.mem_append.mp hx with hx | hx
            · exact (hindg x (mem_nIndent hx)).2.2
            · simp only [List.mem_cons, List.mem_singleton] at hx
              rcases hx with rfl | rfl | hx
              · decide
              · decide
              · cases hx
          simp [List.append_assoc]
          rfl
        exact ⟨headingStep cfg st ('#' :: t') ('#' :: t') N, _, ' ' :: ' ' :: (c :: r),
          h1, rfl, rfl, h2, hval, List.cons_ne_nil _ _, hpref2 r⟩

theorem C7_heading_depth_witness :
    ∃ st2 st3 rest,
      processLine cfgTrimTab { initSt with firstLineChecked := true, frontmatterHandled := true, inBody := true } "## T\n".data = some st2 ∧
      st2.headingLevel = 2 ∧ st2.indentLevel = 0 ∧
      processLine cfgTrimTab st2 ('h' :: "ello\n".data) = some st3 ∧
      st3.output = st2.output ++ [nIndent cfgTrimTab.indent 2 ++ rest] ∧
      rest ≠ [] ∧
      cfgTrimTab.indent.isPrefixOf rest = false :=
  C7_heading_depth cfgTrimTab
    { initSt with firstLineChecked := true, frontmatterHandled := true, inBody := true }
    "## T\n".data 2 'h' "ello\n".data rfl rfl rfl (by decide) (by decide)
    (Or.inl rfl) (by decide) (by decide) (by decide) (by decide) (by decide)
